import Mathlib

/-!
# Credit-based flow control: the two faces of a stream stage

Shallow embedding of `libcaf_core/src/abstract_downstream.cpp` (first part of the
definitions) and of `libcaf_core/src/stream_gatherer_impl.cpp` (second part).

The object state of `abstract_downstream` is a record; every member function
is a function from the state (and its arguments) to its return value and the
new state.  Fire-and-forget sends (`unsafe_send_as(self_, dest, msg)` in the
source) append the pair `(dest, msg)` to the field `outbox`, so that the
messages an operation sends are exactly the entries it appends.
-/

namespace caf

/-! ## Data model -/

/-- Identity of an actor handle (`strong_actor_ptr`); handles compare by identity.  The
null handle is not represented. -/
abbrev strong_actor_ptr := Nat

/-- An atom constant (`atom_value`, a 64-bit enumeration value). -/
abbrev atom_value := Nat

/-- A filter: `std::vector<atom_value>`. -/
abbrev topics := List atom_value

/-- Payload of a dynamically typed `message`. -/
abbrev message := List Nat

/-- An `error` value (its code). -/
abbrev error := Nat

/-- A `stream_id`. -/
abbrev stream_id := Nat

/-- Largest value of `size_t` (`std::numeric_limits<size_t>::max()`), for a 64-bit `size_t`. -/
def size_t_max : Nat := 2 ^ 64 - 1

/-- Result of `static_cast<int32_t>(n)` for a `size_t` value `n`: reduction modulo `2^32`
into the two's complement range. -/
def to_int32 (n : Nat) : Int :=
  if n % 2 ^ 32 < 2 ^ 31 then ((n % 2 ^ 32 : Nat) : Int) else ((n % 2 ^ 32 : Nat) : Int) - 2 ^ 32

/-- The record `stream_msg::batch{xs_size, xs, id}`. -/
structure stream_msg_batch where
  xs_size : Int
  xs : message
  id : Nat
deriving DecidableEq, Repr

/-- The alternatives of a `stream_msg` that this file sends. -/
inductive stream_msg_content where
  | close : stream_msg_content
  | abort (reason : error) : stream_msg_content
  | batch (b : stream_msg_batch) : stream_msg_content
deriving DecidableEq, Repr

/-- A `stream_msg`: the stream id and the content. -/
structure stream_msg where
  sid : stream_id
  content : stream_msg_content
deriving DecidableEq, Repr

/-- A `downstream_path`, with the fields the source reads and writes.
`next_batch_id` is an `int64_t` in the source; its increment is modelled without
overflow (signed overflow is undefined and needs `2^63` sends on one path). -/
structure downstream_path where
  ptr : strong_actor_ptr
  next_batch_id : Nat
  open_credit : Nat
  filter : topics
  redeployable : Bool
  unacknowledged_batches : List (Nat × stream_msg_batch)
deriving DecidableEq, Repr

/-- Modelled from the spec: the constructor `path(ptr, filter, redeployable)` of
`downstream_path`, whose definition is not part of the sources.  The spec fixes
`next_batch_id` to start at 0 and the unacknowledged queue to be filled only by
`send_batch`; the initial `open_credit` is not stated and is the parameter `credit0`. -/
def downstream_path.make (credit0 : Nat) (ptr : strong_actor_ptr) (filter : topics)
    (redeployable : Bool) : downstream_path :=
  { ptr := ptr, next_batch_id := 0, open_credit := credit0, filter := filter,
    redeployable := redeployable, unacknowledged_batches := [] }

/-- State of an `abstract_downstream`: the stream id `sid_`, the path registry `paths_`
(a `std::vector` of owned paths), the active filter set `active_filters_`
(a `std::set<topics>`) and the log `outbox` of the messages sent so far, oldest first. -/
structure abstract_downstream where
  sid_ : stream_id
  paths_ : List downstream_path
  active_filters_ : Finset topics
  outbox : List (strong_actor_ptr × stream_msg)
deriving DecidableEq

namespace abstract_downstream

/-- The constructor: no paths, no active filters, nothing sent. -/
def init (sid : stream_id) : abstract_downstream :=
  { sid_ := sid, paths_ := [], active_filters_ := ∅, outbox := [] }

/-- The call `unsafe_send_as(self_, dest, msg)` of the source: the message is enqueued for
`dest` and the call returns. -/
def send_as (s : abstract_downstream) (dest : strong_actor_ptr) (msg : stream_msg) :
    abstract_downstream :=
  { s with outbox := s.outbox ++ [(dest, msg)] }

/-- Modelled from the spec: `fold_paths(init, f)`, declared in the missing header; a fold
over all paths of the registry in registry order, starting from `init`. -/
def fold_paths (s : abstract_downstream) (init : Nat) (f : Nat → downstream_path → Nat) : Nat :=
  s.paths_.foldl f init

/-- Function `total_credit`: the fold of `x + y.open_credit` in `size_t` arithmetic from 0. -/
def total_credit (s : abstract_downstream) : Nat :=
  s.fold_paths 0 (fun x y => (x + y.open_credit) % 2 ^ 64)

/-- Function `max_credit`: the fold of `std::max(x, y.open_credit)` from 0. -/
def max_credit (s : abstract_downstream) : Nat :=
  s.fold_paths 0 (fun x y => max x y.open_credit)

/-- Function `min_credit`: the fold of `std::min(x, y.open_credit)` from the largest `size_t`. -/
def min_credit (s : abstract_downstream) : Nat :=
  s.fold_paths size_t_max (fun x y => min x y.open_credit)

/-- Function `recalculate_active_filters`: clear the set, then insert the filter of every path. -/
def recalculate_active_filters (s : abstract_downstream) : abstract_downstream :=
  { s with active_filters_ := s.paths_.foldl (fun acc x => insert x.filter acc) ∅ }

/-- Function `add_path`: when no path has the peer `ptr`, append a new path, recompute the active
filters and return true; otherwise return false. -/
def add_path (credit0 : Nat) (s : abstract_downstream) (ptr : strong_actor_ptr)
    (filter : topics) (redeployable : Bool) : Bool × abstract_downstream :=
  if s.paths_.all (fun x => !(x.ptr == ptr)) then
    (true, recalculate_active_filters
      { s with paths_ := s.paths_ ++ [downstream_path.make credit0 ptr filter redeployable] })
  else
    (false, s)

/-- Exchange the elements at positions `i` and `j` (`std::swap(*i, paths_.back())`). -/
def swap_at (l : List downstream_path) (i j : Nat) : List downstream_path :=
  match l[i]?, l[j]? with
  | some a, some b => (l.set i b).set j a
  | _, _ => l

/-- Function `remove_path`: find the first path of peer `ptr`; when there is one, swap it
with the last path unless it is the last, pop it, send it a close message and return true;
otherwise return false.  The source asserts that the handle of the path found is not null;
handles are non-null identities here.  The inner `none` case cannot occur: the registry
holds a path when one was found. -/
def remove_path (s : abstract_downstream) (ptr : strong_actor_ptr) :
    Bool × abstract_downstream :=
  match s.paths_.findIdx? (fun x => x.ptr == ptr) with
  | none => (false, s)
  | some i =>
    let ps := if i ≠ s.paths_.length - 1 then swap_at s.paths_ i (s.paths_.length - 1)
              else s.paths_
    match ps.getLast? with
    | none => (false, s)
    | some x =>
      (true, send_as { s with paths_ := ps.dropLast } x.ptr
        { sid := s.sid_, content := stream_msg_content.close })

/-- Function `close`: send a close message to the peer of every path, in order, then clear the
registry. -/
def close (s : abstract_downstream) : abstract_downstream :=
  { (s.paths_.foldl
      (fun acc x => send_as acc x.ptr { sid := s.sid_, content := stream_msg_content.close })
      s) with paths_ := [] }

/-- Function `abort`: send an abort message carrying `reason` to the peer of every path whose peer
differs from `cause`. -/
def abort (s : abstract_downstream) (cause : strong_actor_ptr) (reason : error) :
    abstract_downstream :=
  s.paths_.foldl
    (fun acc x =>
      if x.ptr ≠ cause then
        send_as acc x.ptr { sid := s.sid_, content := stream_msg_content.abort reason }
      else acc)
    s

/-- Function `find`: the first path whose peer is `ptr`, or none. -/
def find (s : abstract_downstream) (ptr : strong_actor_ptr) : Option downstream_path :=
  s.paths_.find? (fun y => y.ptr == ptr)

/-- Function `send_batch` on the path `dest`: take the next batch id and advance the counter, build
the batch, store `(batch_id, batch)` in the unacknowledged queue when the path is
redeployable, and send the batch to the peer.  Returns the updated path and state. -/
def send_batch (s : abstract_downstream) (dest : downstream_path) (chunk_size : Nat)
    (chunk : message) : downstream_path × abstract_downstream :=
  let scs := to_int32 chunk_size
  let batch_id := dest.next_batch_id
  let dest1 := { dest with next_batch_id := dest.next_batch_id + 1 }
  let batch : stream_msg_batch := { xs_size := scs, xs := chunk, id := batch_id }
  let dest2 :=
    if dest1.redeployable then
      { dest1 with unacknowledged_batches := dest1.unacknowledged_batches ++ [(batch_id, batch)] }
    else dest1
  (dest2, send_as s dest2.ptr { sid := s.sid_, content := stream_msg_content.batch batch })

/-- Insertion step of the model of `std::sort`: `a` goes before the first element that
`cmp` does not put before it. -/
def sort_insert (cmp : downstream_path → downstream_path → Bool) (a : downstream_path) :
    List downstream_path → List downstream_path
  | [] => [a]
  | b :: l => if cmp b a then b :: sort_insert cmp a l else a :: b :: l

/-- Model of `std::sort(first, last, cmp)`: an insertion sort that consults only `cmp`.
The standard leaves the order of equivalent elements open; this model keeps it. -/
def std_sort (cmp : downstream_path → downstream_path → Bool) :
    List downstream_path → List downstream_path
  | [] => []
  | a :: l => sort_insert cmp a (std_sort cmp l)

/-- Function `sort_by_credit`: sort the registry with `x->open_credit > y->open_credit`. -/
def sort_by_credit (s : abstract_downstream) : abstract_downstream :=
  { s with paths_ := std_sort (fun x y => decide (x.open_credit > y.open_credit)) s.paths_ }

/-- The call `send_batch(*p, chunk_size, chunk)` where `p` is the path stored at position
`i` of the registry: `dest` is a reference, so the registry holds the updated path. -/
def send_batch_at (s : abstract_downstream) (i : Nat) (chunk_size : Nat) (chunk : message) :
    abstract_downstream :=
  match s.paths_[i]? with
  | none => s
  | some dest =>
    { (send_batch s dest chunk_size chunk).2 with
      paths_ := s.paths_.set i (send_batch s dest chunk_size chunk).1 }

/-- Successive `send_batch` calls on one path, one per entry `(chunk_size, chunk)`. -/
def send_batches (s : abstract_downstream) (dest : downstream_path) :
    List (Nat × message) → downstream_path × abstract_downstream
  | [] => (dest, s)
  | c :: cs => send_batches (send_batch s dest c.1 c.2).2 (send_batch s dest c.1 c.2).1 cs

/-- The calls a user of the downstream can make on it. -/
inductive op where
  | add_path (ptr : strong_actor_ptr) (filter : topics) (redeployable : Bool) : op
  | remove_path (ptr : strong_actor_ptr) : op
  | close : op
  | abort (cause : strong_actor_ptr) (reason : error) : op
  | send_batch (i : Nat) (chunk_size : Nat) (chunk : message) : op
  | sort_by_credit : op
deriving DecidableEq, Repr

/-- The state after one call. -/
def step (credit0 : Nat) (s : abstract_downstream) : op → abstract_downstream
  | op.add_path ptr filter redeployable => (add_path credit0 s ptr filter redeployable).2
  | op.remove_path ptr => (remove_path s ptr).2
  | op.close => close s
  | op.abort cause reason => abort s cause reason
  | op.send_batch i chunk_size chunk => send_batch_at s i chunk_size chunk
  | op.sort_by_credit => sort_by_credit s

/-- The state after a sequence of calls, first call first. -/
def run (credit0 : Nat) (s : abstract_downstream) (ops : List op) : abstract_downstream :=
  ops.foldl (step credit0) s

/-- A state is reachable when some sequence of calls leads to it from the freshly
constructed downstream. -/
def reachable (credit0 : Nat) (sid : stream_id) (s : abstract_downstream) : Prop :=
  ∃ ops : List op, run credit0 (init sid) ops = s

/-- No two paths of the registry have the same peer. -/
def unique_peers (s : abstract_downstream) : Prop :=
  (s.paths_.map downstream_path.ptr).Nodup

/-- The registry of the scenario in the specification: paths A (peer 1, credit 5),
B (peer 2, credit 8) and C (peer 3, credit 2), in this order. -/
def scenario_state : abstract_downstream :=
  { sid_ := 0,
    paths_ := [downstream_path.make 5 1 [] false, downstream_path.make 8 2 [] false,
               downstream_path.make 2 3 [] false],
    active_filters_ := {[]},
    outbox := [] }

/-- A registry of two paths whose credits are `2^63` each. -/
def large_credit_state : abstract_downstream :=
  { sid_ := 0,
    paths_ := [downstream_path.make (2 ^ 63) 1 [] false, downstream_path.make (2 ^ 63) 2 [] false],
    active_filters_ := {[]},
    outbox := [] }

/-- The batches that successive `send_batch` calls build from the chunks `cs` when the
first of them gets the id `n`. -/
def batches_from (n : Nat) (cs : List (Nat × message)) : List stream_msg_batch :=
  (List.enumFrom n cs).map (fun kc => { xs_size := to_int32 kc.2.1, xs := kc.2.2, id := kc.1 })

/-- Number of `add_path` calls among `ops`, made in this order from state `s`, that
register a path for peer `p` (that is, that return true). -/
def registrations (credit0 : Nat) (p : strong_actor_ptr) :
    abstract_downstream → List op → Nat
  | _, [] => 0
  | s, op.add_path ptr filter redeployable :: ops =>
    (if ptr = p ∧ (add_path credit0 s ptr filter redeployable).1 = true then 1 else 0)
      + registrations credit0 p (step credit0 s (op.add_path ptr filter redeployable)) ops
  | s, o :: ops => registrations credit0 p (step credit0 s o) ops

/-- Number of close messages addressed to peer `p` among the messages sent. -/
def closes_to (s : abstract_downstream) (p : strong_actor_ptr) : Nat :=
  s.outbox.countP (fun e => decide (e.1 = p ∧ e.2.content = stream_msg_content.close))

/-- Number of paths of peer `p` in the registry. -/
def paths_of (s : abstract_downstream) (p : strong_actor_ptr) : Nat :=
  (s.paths_.map downstream_path.ptr).count p

/-- Whether a message content is a shutdown notification, that is, a close or an abort. -/
def is_shutdown : stream_msg_content → Bool
  | stream_msg_content.close => true
  | stream_msg_content.abort _ => true
  | stream_msg_content.batch _ => false

/-- Number of shutdown messages (close or abort) addressed to peer `p` among the messages
sent. -/
def shutdowns_to (s : abstract_downstream) (p : strong_actor_ptr) : Nat :=
  s.outbox.countP (fun e => decide (e.1 = p) && is_shutdown e.2.content)

end abstract_downstream

/-! ## Data model of the gatherer

Shallow embedding of `libcaf_core/src/stream_gatherer_impl.cpp`.  Besides the messages
sent (`outbox`), the state logs the calls to the liveness watch (`stream_aborter`) and the
calls `listener.deliver(x)` on response promises.
-/

/-- A `stream_slot`. -/
abbrev stream_slot := Nat

/-- A `stream_priority` (an enumeration value). -/
abbrev stream_priority := Nat

/-- The members of the enumeration `sec` that this file uses. -/
inductive sec where
  | cannot_add_upstream : sec
deriving DecidableEq, Repr

/-- An `inbound_path`, with the fields the source reads and writes.  The field
`shutdown_reason` is `none` until a reason is assigned. -/
structure inbound_path where
  slot : stream_slot
  hdl : strong_actor_ptr
  prio : stream_priority
  shutdown_reason : Option error
deriving DecidableEq, Repr

/-- A `path_ptr`: a pointer to an `inbound_path` owned by the registry, represented by the
slot and the handle of the path it points to; both stay fixed while the path lives. -/
abbrev path_ref := stream_slot × strong_actor_ptr

/-- The pointer value of a path. -/
def inbound_path.key (p : inbound_path) : path_ref := (p.slot, p.hdl)

/-- A `response_promise`: its identity and whether it is pending. -/
structure response_promise where
  id : Nat
  pending : Bool
deriving DecidableEq, Repr

/-- What a `deliver` call hands to a promise: a result message or an error. -/
inductive delivery where
  | value (result : message) : delivery
  | failure (reason : error) : delivery
deriving DecidableEq, Repr

/-- The messages the gatherer sends. -/
inductive gatherer_msg where
  | irregular_shutdown (slot : stream_slot) (reason : sec) : gatherer_msg
  | ack_open (slot : stream_slot) (hdl : strong_actor_ptr) (initial_demand : Int)
      (redeployable : Bool) : gatherer_msg
  | ack_batch (slot : stream_slot) (new_demand : Int) : gatherer_msg
  | path_removed (slot : stream_slot) (reason : error) : gatherer_msg
deriving DecidableEq, Repr

/-- The calls to the liveness watch: `stream_aborter::add` and `stream_aborter::del` with
the handle and the slot of a path (the address of the stage and the aborter type are fixed
for one gatherer). -/
inductive aborter_call where
  | add (hdl : strong_actor_ptr) (slot : stream_slot) : aborter_call
  | del (hdl : strong_actor_ptr) (slot : stream_slot) : aborter_call
deriving DecidableEq, Repr

/-- State of a `stream_gatherer_impl`: the path registry `paths_`, the assignment vector
`assignment_vec_` of pairs (path pointer, pending credit as a `long`), the listeners
`listeners_`, and three logs, oldest entry first: the messages sent, the liveness watch
calls and the deliveries to promises. -/
structure stream_gatherer_impl where
  paths_ : List inbound_path
  assignment_vec_ : List (path_ref × Int)
  listeners_ : List response_promise
  outbox : List (strong_actor_ptr × gatherer_msg)
  aborter_calls : List aborter_call
  delivered : List (response_promise × delivery)
deriving DecidableEq

/-- What the gatherer takes from code outside the sources: the credit policy
`initial_credit(available_credit, ptr)`, a virtual member function, and the priority that a
newly constructed `inbound_path` carries. -/
structure gatherer_env where
  initial_credit : stream_gatherer_impl → Int → path_ref → Int
  default_prio : stream_priority

namespace stream_gatherer_impl

/-- The constructor: no paths, no assignments, no listeners, empty logs. -/
def init : stream_gatherer_impl :=
  { paths_ := [], assignment_vec_ := [], listeners_ := [], outbox := [],
    aborter_calls := [], delivered := [] }

/-- A message is enqueued for `dest`. -/
def send (s : stream_gatherer_impl) (dest : strong_actor_ptr) (msg : gatherer_msg) :
    stream_gatherer_impl :=
  { s with outbox := s.outbox ++ [(dest, msg)] }

/-- The call `stream_aborter::del(hdl, self_->address(), slot, aborter_type)`. -/
def aborter_del (s : stream_gatherer_impl) (hdl : strong_actor_ptr) (slot : stream_slot) :
    stream_gatherer_impl :=
  { s with aborter_calls := s.aborter_calls ++ [aborter_call.del hdl slot] }

/-- The call `listener.deliver(x)`. -/
def deliver (s : stream_gatherer_impl) (listener : response_promise) (x : delivery) :
    stream_gatherer_impl :=
  { s with delivered := s.delivered ++ [(listener, x)] }

/-- Modelled from the spec: `find(slot, hdl)` of the path registry, defined in the base
class outside the sources; a linear scan for the first path with this slot and handle. -/
def find (s : stream_gatherer_impl) (slot : stream_slot) (hdl : strong_actor_ptr) :
    Option inbound_path :=
  s.paths_.find? (fun p => p.slot == slot && p.hdl == hdl)

/-- Modelled from the spec: `inbound_path::emit_irregular_shutdown(self, slot, hdl, reason)`,
defined outside the sources; the refusal is sent to the peer `hdl`. -/
def emit_irregular_shutdown (s : stream_gatherer_impl) (slot : stream_slot)
    (hdl : strong_actor_ptr) (reason : sec) : stream_gatherer_impl :=
  send s hdl (gatherer_msg.irregular_shutdown slot reason)

/-- Modelled from the spec: `add_path_impl(slot, hdl)` of the base class, defined outside
the sources; it constructs a path for the slot and the handle, appends it to the registry,
registers the liveness watch of the path and returns the pointer to the path. -/
def add_path_impl (env : gatherer_env) (s : stream_gatherer_impl) (slot : stream_slot)
    (hdl : strong_actor_ptr) : path_ref × stream_gatherer_impl :=
  ((slot, hdl),
   { s with
     paths_ := s.paths_ ++
       [{ slot := slot, hdl := hdl, prio := env.default_prio, shutdown_reason := none }],
     aborter_calls := s.aborter_calls ++ [aborter_call.add hdl slot] })

/-- An assignment through a path pointer: `f` is applied to the path that `ptr` points to,
the first path of the registry with the slot and handle of `ptr`. -/
def update_path (ptr : path_ref) (f : inbound_path → inbound_path) :
    List inbound_path → List inbound_path
  | [] => []
  | p :: l => if p.key = ptr then f p :: l else p :: update_path ptr f l

/-- Modelled from the spec: `ptr->emit_ack_open(rebind_from, initial_demand, redeployable)`,
defined outside the sources; the open of the path is acknowledged to `rebind_from` with the
granted credit and the redeployable flag. -/
def emit_ack_open (s : stream_gatherer_impl) (ptr : path_ref) (rebind_from : strong_actor_ptr)
    (initial_demand : Int) (redeployable : Bool) : stream_gatherer_impl :=
  send s rebind_from (gatherer_msg.ack_open ptr.1 ptr.2 initial_demand redeployable)

/-- Modelled from the spec: `ptr->emit_ack_batch(new_demand)`, defined outside the sources;
a credit acknowledgment granting `new_demand` is sent to the peer of the path. -/
def emit_ack_batch (s : stream_gatherer_impl) (ptr : path_ref) (new_demand : Int) :
    stream_gatherer_impl :=
  send s ptr.2 (gatherer_msg.ack_batch ptr.1 new_demand)

/-- Function `add_path`: when `find(slot, hdl)` has a path, send the refusal
`sec::cannot_add_upstream` to `hdl` and return the null pointer; otherwise register the
path, append `(ptr, 0)` to the assignment vector, keep `result_cb` when it is pending, set
the priority, acknowledge the open and return the pointer. -/
def add_path (env : gatherer_env) (s : stream_gatherer_impl) (slot : stream_slot)
    (hdl original_stage : strong_actor_ptr) (prio : stream_priority) (available_credit : Int)
    (redeployable : Bool) (result_cb : response_promise) :
    Option path_ref × stream_gatherer_impl :=
  if (s.find slot hdl).isSome then
    (none, emit_irregular_shutdown s slot hdl sec.cannot_add_upstream)
  else
    let ptr := (add_path_impl env s slot hdl).1
    let s1 := (add_path_impl env s slot hdl).2
    let s2 := { s1 with assignment_vec_ := s1.assignment_vec_ ++ [(ptr, 0)] }
    let s3 := if result_cb.pending then { s2 with listeners_ := s2.listeners_ ++ [result_cb] }
              else s2
    let s4 := { s3 with paths_ := update_path ptr (fun p => { p with prio := prio }) s3.paths_ }
    (some ptr,
     emit_ack_open s4 ptr original_stage (env.initial_credit s4 available_credit ptr)
       redeployable)

/-- Exchange the element at position `i` with the last element. -/
def swap_with_last (l : List inbound_path) (i : Nat) : List inbound_path :=
  match l[i]?, l[l.length - 1]? with
  | some a, some b => (l.set i b).set (l.length - 1) a
  | _, _ => l

/-- Modelled from the spec: `remove_path(slot, x, reason, silent)` of the base class,
defined outside the sources.  It returns false when the registry has no path with this slot
and handle; otherwise it removes the first such path by swapping it with the last path and
popping, deregisters the liveness watch of the path, notifies the peer of the reason unless
`silent`, and returns true. -/
def super_remove_path (s : stream_gatherer_impl) (slot : stream_slot) (x : strong_actor_ptr)
    (reason : error) (silent : Bool) : Bool × stream_gatherer_impl :=
  match s.paths_.findIdx? (fun p => p.slot == slot && p.hdl == x) with
  | none => (false, s)
  | some i =>
    let s1 := aborter_del { s with paths_ := (swap_with_last s.paths_ i).dropLast } x slot
    (true, if silent then s1 else send s1 x (gatherer_msg.path_removed slot reason))

/-- Function `remove_path`: find the first entry of the assignment vector whose path has
this slot and handle; when there is one, erase it and return what `remove_path` of the base
class returns; otherwise return false. -/
def remove_path (s : stream_gatherer_impl) (slot : stream_slot) (x : strong_actor_ptr)
    (reason : error) (silent : Bool) : Bool × stream_gatherer_impl :=
  match s.assignment_vec_.findIdx? (fun y => y.1.1 == slot && y.1.2 == x) with
  | some i =>
    super_remove_path { s with assignment_vec_ := s.assignment_vec_.eraseIdx i }
      slot x reason silent
  | none => (false, s)

/-- Function `close`: deregister the liveness watch of every path, clear the registry and
the assignment vector, deliver `result` to every listener and clear the listeners. -/
def close (s : stream_gatherer_impl) (result : message) : stream_gatherer_impl :=
  let s1 := s.paths_.foldl (fun acc path => aborter_del acc path.hdl path.slot) s
  let s2 := { s1 with paths_ := [], assignment_vec_ := [] }
  let s3 := s2.listeners_.foldl (fun acc listener => deliver acc listener (delivery.value result))
    s2
  { s3 with listeners_ := [] }

/-- Function `abort`: deregister the liveness watch of every path and store `reason` in
it, clear the registry and the assignment vector, deliver `reason` to every listener and
clear the listeners. -/
def abort (s : stream_gatherer_impl) (reason : error) : stream_gatherer_impl :=
  let s1 := s.paths_.foldl
    (fun acc path =>
      { aborter_del acc path.hdl path.slot with
        paths_ := update_path path.key (fun p => { p with shutdown_reason := some reason })
          (aborter_del acc path.hdl path.slot).paths_ })
    s
  let s2 := { s1 with paths_ := [], assignment_vec_ := [] }
  let s3 := s2.listeners_.foldl
    (fun acc listener => deliver acc listener (delivery.failure reason)) s2
  { s3 with listeners_ := [] }

/-- Function `emit_credits`: for every entry of the assignment vector with a positive
amount, in order, acknowledge that amount on the path of the entry. -/
def emit_credits (s : stream_gatherer_impl) : stream_gatherer_impl :=
  s.assignment_vec_.foldl
    (fun acc kvp => if kvp.2 > 0 then emit_ack_batch acc kvp.1 kvp.2 else acc) s

/-- The calls a user of the gatherer can make on it. -/
inductive op where
  | add_path (slot : stream_slot) (hdl original_stage : strong_actor_ptr)
      (prio : stream_priority) (available_credit : Int) (redeployable : Bool)
      (result_cb : response_promise) : op
  | remove_path (slot : stream_slot) (x : strong_actor_ptr) (reason : error)
      (silent : Bool) : op
  | close (result : message) : op
  | abort (reason : error) : op
  | emit_credits : op
deriving DecidableEq, Repr

/-- The state after one call. -/
def step (env : gatherer_env) (s : stream_gatherer_impl) : op → stream_gatherer_impl
  | op.add_path slot hdl original_stage prio available_credit redeployable result_cb =>
    (add_path env s slot hdl original_stage prio available_credit redeployable result_cb).2
  | op.remove_path slot x reason silent => (remove_path s slot x reason silent).2
  | op.close result => close s result
  | op.abort reason => abort s reason
  | op.emit_credits => emit_credits s

/-- The state after a sequence of calls, first call first. -/
def run (env : gatherer_env) (s : stream_gatherer_impl) (ops : List op) :
    stream_gatherer_impl :=
  ops.foldl (step env) s

/-- A state is reachable when some sequence of calls leads to it from the freshly
constructed gatherer. -/
def reachable (env : gatherer_env) (s : stream_gatherer_impl) : Prop :=
  ∃ ops : List op, run env init ops = s

/-- No two paths of the registry have the same slot and handle. -/
def unique_paths (s : stream_gatherer_impl) : Prop :=
  (s.paths_.map inbound_path.key).Nodup

/-- The pointers of the assignment vector are the pointers of the paths of the registry,
each as often, in some order. -/
def same_paths (s : stream_gatherer_impl) : Prop :=
  (s.assignment_vec_.map Prod.fst).Perm (s.paths_.map inbound_path.key)

/-- The promises that the calls `ops`, made in this order from state `s`, hand to the
gatherer to keep: the promise of every `add_path` call that finds no path for its slot and
handle and whose promise is pending. -/
def retained (env : gatherer_env) : stream_gatherer_impl → List op → List response_promise
  | _, [] => []
  | s, op.add_path slot hdl original_stage prio available_credit redeployable result_cb
      :: ops =>
    (if (s.find slot hdl).isSome = false ∧ result_cb.pending = true then [result_cb] else [])
      ++ retained env (step env s
          (op.add_path slot hdl original_stage prio available_credit redeployable result_cb))
          ops
  | s, o :: ops => retained env (step env s o) ops

/-- A credit policy for examples: grant what is available, at most 50. -/
def example_env : gatherer_env :=
  { initial_credit := fun _ available_credit _ => min available_credit 50,
    default_prio := 1 }

end stream_gatherer_impl

namespace abstract_downstream

/-! ## Basic facts about lookup and the active filter set -/

theorem all_ne_eq_true_iff (l : List downstream_path) (ptr : strong_actor_ptr) :
    l.all (fun x => !(x.ptr == ptr)) = true ↔ ∀ p ∈ l, p.ptr ≠ ptr := by
  simp [List.all_eq_true]

theorem find_eq_none_iff (s : abstract_downstream) (ptr : strong_actor_ptr) :
    s.find ptr = none ↔ ∀ p ∈ s.paths_, p.ptr ≠ ptr := by
  simp [find, List.find?_eq_none]

theorem find_isSome_iff (s : abstract_downstream) (ptr : strong_actor_ptr) :
    (s.find ptr).isSome = true ↔ ∃ p ∈ s.paths_, p.ptr = ptr := by
  simp [find, List.find?_isSome]

theorem find_some_ptr (s : abstract_downstream) (ptr : strong_actor_ptr) (p : downstream_path)
    (h : s.find ptr = some p) : p ∈ s.paths_ ∧ p.ptr = ptr := by
  unfold find at h
  refine ⟨List.mem_of_find?_eq_some h, ?_⟩
  simpa using List.find?_some h

theorem mem_foldl_insert_filter (l : List downstream_path) (acc : Finset topics) (f : topics) :
    f ∈ l.foldl (fun acc x => insert x.filter acc) acc ↔ f ∈ acc ∨ ∃ p ∈ l, p.filter = f := by
  induction l generalizing acc with
  | nil => simp
  | cons a l ih =>
    simp only [List.foldl_cons, ih, Finset.mem_insert, List.mem_cons, exists_eq_or_imp]
    constructor
    · rintro ((h | h) | h)
      · exact Or.inr (Or.inl h.symm)
      · exact Or.inl h
      · exact Or.inr (Or.inr h)
    · rintro (h | h | h)
      · exact Or.inl (Or.inr h)
      · exact Or.inl (Or.inl h.symm)
      · exact Or.inr h

theorem mem_recalculate_active_filters (s : abstract_downstream) (f : topics) :
    f ∈ (recalculate_active_filters s).active_filters_ ↔ ∃ p ∈ s.paths_, p.filter = f := by
  simp [recalculate_active_filters, mem_foldl_insert_filter]

/-! ## add_path -/

/-- Closed form of `add_path` for a peer without a path. -/
theorem add_path_of_fresh (credit0 : Nat) (s : abstract_downstream) (ptr : strong_actor_ptr)
    (filter : topics) (redeployable : Bool) (h : s.find ptr = none) :
    add_path credit0 s ptr filter redeployable = (true, recalculate_active_filters
      { s with paths_ := s.paths_ ++ [downstream_path.make credit0 ptr filter redeployable] }) := by
  have hall : s.paths_.all (fun x => !(x.ptr == ptr)) = true :=
    (all_ne_eq_true_iff _ _).2 ((find_eq_none_iff s ptr).1 h)
  unfold add_path
  rw [if_pos hall]

/-- After `add_path` for a peer without a path, `find` returns the path just built. -/
theorem find_add_path_of_fresh (credit0 : Nat) (s : abstract_downstream)
    (ptr : strong_actor_ptr) (filter : topics) (redeployable : Bool) (h : s.find ptr = none) :
    (add_path credit0 s ptr filter redeployable).2.find ptr
      = some (downstream_path.make credit0 ptr filter redeployable) := by
  rw [add_path_of_fresh credit0 s ptr filter redeployable h]
  have hn : s.paths_.find? (fun y => y.ptr == ptr) = none := h
  simp [find, recalculate_active_filters, List.find?_append, hn, downstream_path.make]

/-- C1: when the peer already has a path, `add_path` returns false and the whole state
(paths, active filter set, messages sent) is the state before the call; in particular the
registry has the same size and the path found for the peer is the same, with its credit. -/
theorem add_path_duplicate (credit0 : Nat) (s : abstract_downstream) (ptr : strong_actor_ptr)
    (filter : topics) (redeployable : Bool) (h : (s.find ptr).isSome = true) :
    add_path credit0 s ptr filter redeployable = (false, s) ∧
    (add_path credit0 s ptr filter redeployable).2.paths_.length = s.paths_.length ∧
    (add_path credit0 s ptr filter redeployable).2.outbox = s.outbox ∧
    (add_path credit0 s ptr filter redeployable).2.find ptr = s.find ptr := by
  have hne : ¬ (s.paths_.all (fun x => !(x.ptr == ptr)) = true) := by
    rw [all_ne_eq_true_iff]
    obtain ⟨p, hp, hpp⟩ := (find_isSome_iff s ptr).1 h
    exact fun hall => hall p hp hpp
  have e : add_path credit0 s ptr filter redeployable = (false, s) := by
    unfold add_path
    rw [if_neg hne]
  rw [e]
  exact ⟨rfl, rfl, rfl, rfl⟩

/-- Witness for C1, the scenario of the specification: path 7 is added with credit 10 and
added again; the second call is refused and the registry still holds that one path with
credit 10. -/
theorem add_path_duplicate_witness :
    ((add_path 10 (init 1) 7 [3] false).2.find 7).isSome = true ∧
    (add_path 10 (add_path 10 (init 1) 7 [3] false).2 7 [4] true
        = (false, (add_path 10 (init 1) 7 [3] false).2) ∧
      (add_path 10 (add_path 10 (init 1) 7 [3] false).2 7 [4] true).2.paths_.length
        = (add_path 10 (init 1) 7 [3] false).2.paths_.length ∧
      (add_path 10 (add_path 10 (init 1) 7 [3] false).2 7 [4] true).2.outbox
        = (add_path 10 (init 1) 7 [3] false).2.outbox ∧
      (add_path 10 (add_path 10 (init 1) 7 [3] false).2 7 [4] true).2.find 7
        = (add_path 10 (init 1) 7 [3] false).2.find 7) :=
  ⟨by decide, add_path_duplicate 10 (add_path 10 (init 1) 7 [3] false).2 7 [4] true (by decide)⟩

/-- C2: when the peer has no path, `add_path` returns true, the registry is the old one
with one new path appended that carries the peer, the filter and the redeployable flag
(batch counter 0, empty unacknowledged queue), `find` returns that path, the active filter
set is exactly the set of the filters of the paths of the new registry, and nothing is
sent. -/
theorem add_path_fresh (credit0 : Nat) (s : abstract_downstream) (ptr : strong_actor_ptr)
    (filter : topics) (redeployable : Bool) (h : s.find ptr = none) :
    (add_path credit0 s ptr filter redeployable).1 = true ∧
    (∃ p : downstream_path,
      p.ptr = ptr ∧ p.filter = filter ∧ p.redeployable = redeployable ∧
      p.next_batch_id = 0 ∧ p.unacknowledged_batches = [] ∧
      (add_path credit0 s ptr filter redeployable).2.paths_ = s.paths_ ++ [p] ∧
      (add_path credit0 s ptr filter redeployable).2.find ptr = some p) ∧
    (∀ f : topics, f ∈ (add_path credit0 s ptr filter redeployable).2.active_filters_ ↔
      ∃ p ∈ (add_path credit0 s ptr filter redeployable).2.paths_, p.filter = f) ∧
    (add_path credit0 s ptr filter redeployable).2.outbox = s.outbox ∧
    (add_path credit0 s ptr filter redeployable).2.sid_ = s.sid_ := by
  have hf := find_add_path_of_fresh credit0 s ptr filter redeployable h
  rw [add_path_of_fresh credit0 s ptr filter redeployable h] at hf ⊢
  refine ⟨rfl, ⟨downstream_path.make credit0 ptr filter redeployable,
    rfl, rfl, rfl, rfl, rfl, rfl, hf⟩, ?_, rfl, rfl⟩
  · intro f
    rw [mem_recalculate_active_filters]
    rfl

/-- Witness for C2: a second peer 9 is added to a registry that holds peer 7. -/
theorem add_path_fresh_witness :
    (add_path 0 (init 1) 7 [3] false).2.find 9 = none ∧
    (add_path 0 (add_path 0 (init 1) 7 [3] false).2 9 [4, 5] true).1 = true ∧
    (add_path 0 (add_path 0 (init 1) 7 [3] false).2 9 [4, 5] true).2.paths_ =
      [downstream_path.make 0 7 [3] false, downstream_path.make 0 9 [4, 5] true] ∧
    (add_path 0 (add_path 0 (init 1) 7 [3] false).2 9 [4, 5] true).2.active_filters_ =
      {[3], [4, 5]} :=
  ⟨by decide,
   (add_path_fresh 0 (add_path 0 (init 1) 7 [3] false).2 9 [4, 5] true (by decide)).1,
   by decide, by decide⟩

/-! ## remove_path -/

theorem findIdx_of_split (a b : List downstream_path) (x : downstream_path)
    (ptr : strong_actor_ptr) (hx : x.ptr = ptr) (ha : ∀ q ∈ a, q.ptr ≠ ptr) :
    (a ++ x :: b).findIdx? (fun y => y.ptr == ptr) = some a.length := by
  induction a with
  | nil => simp [List.findIdx?_cons, hx]
  | cons c a ih =>
    have hc : c.ptr ≠ ptr := ha c (List.mem_cons_self _ _)
    have ih2 := ih (fun q hq => ha q (List.mem_cons_of_mem _ hq))
    simp [List.findIdx?_cons, hc, List.findIdx?_succ, ih2]

theorem getElem_concat_last (c : List downstream_path) (y : downstream_path) :
    (c ++ [y])[(c ++ [y]).length - 1]? = some y := by
  simp

theorem set_concat_last (c : List downstream_path) (x y : downstream_path) :
    (c ++ [y]).set c.length x = c ++ [x] := by
  rw [List.set_append_right _ _ (Nat.le_refl _)]
  simp

theorem swap_at_split (a b : List downstream_path) (x y : downstream_path) :
    swap_at ((a ++ x :: b) ++ [y]) a.length (((a ++ x :: b) ++ [y]).length - 1)
      = (a ++ y :: b) ++ [x] := by
  have h1 : ((a ++ x :: b) ++ [y])[a.length]? = some x := by
    rw [List.append_assoc, List.getElem?_append_right (Nat.le_refl _)]
    simp
  have h2 := getElem_concat_last (a ++ x :: b) y
  have h3 : ((a ++ x :: b) ++ [y]).set a.length y = (a ++ y :: b) ++ [y] := by
    simp
  have h4 : ((a ++ x :: b) ++ [y]).length - 1 = (a ++ y :: b).length := by
    simp
  unfold swap_at
  rw [h1, h2]
  simp only []
  rw [h3, h4, set_concat_last]

/-- Closed form of a successful `remove_path`: with the registry split at the first path
of the peer as `a ++ x :: b`, the last path of `b` (if any) takes the place of `x`. -/
theorem remove_path_of_split (s : abstract_downstream) (a b : List downstream_path)
    (x : downstream_path) (ptr : strong_actor_ptr) (hs : s.paths_ = a ++ x :: b)
    (hx : x.ptr = ptr) (ha : ∀ q ∈ a, q.ptr ≠ ptr) :
    remove_path s ptr =
      (true, send_as { s with paths_ := a ++ (b.getLast?.toList ++ b.dropLast) } ptr
        { sid := s.sid_, content := stream_msg_content.close }) := by
  have hi := findIdx_of_split a b x ptr hx ha
  unfold remove_path
  rw [hs, hi]
  rcases List.eq_nil_or_concat b with hb | ⟨c, y, hb⟩
  · subst hb
    simp [hx]
  · subst hb
    have hne : a.length ≠ (a ++ x :: c.concat y).length - 1 := by
      simp
    have hl : a ++ x :: c.concat y = (a ++ x :: c) ++ [y] := by simp
    simp only [hne, ne_eq, not_false_eq_true, if_true]
    rw [hl, swap_at_split, List.getLast?_concat, List.dropLast_concat]
    simp [hx]

theorem find_split (s : abstract_downstream) (ptr : strong_actor_ptr)
    (h : (s.find ptr).isSome = true) :
    ∃ a x b, s.paths_ = a ++ x :: b ∧ x.ptr = ptr ∧ (∀ q ∈ a, q.ptr ≠ ptr) ∧
      s.find ptr = some x := by
  obtain ⟨x, hx⟩ := Option.isSome_iff_exists.1 h
  have hx2 : s.paths_.find? (fun y => y.ptr == ptr) = some x := hx
  obtain ⟨hp, a, b, hab, hall⟩ := List.find?_eq_some.1 hx2
  refine ⟨a, x, b, hab, by simpa using hp, ?_, hx⟩
  intro q hq
  simpa using hall q hq

theorem find_list_of_nodup (l : List downstream_path) (x : downstream_path)
    (h : x ∈ l) (hu : (l.map downstream_path.ptr).Nodup) :
    l.find? (fun y => y.ptr == x.ptr) = some x := by
  induction l with
  | nil => simp at h
  | cons a l ih =>
    simp only [List.map_cons, List.nodup_cons, List.mem_map, not_exists, not_and] at hu
    by_cases hax : a.ptr = x.ptr
    · rcases List.mem_cons.1 h with rfl | hm
      · simp
      · exact absurd hax.symm (hu.1 x hm)
    · rcases List.mem_cons.1 h with rfl | hm
      · exact absurd rfl hax
      · rw [List.find?_cons_of_neg]
        · exact ih hm hu.2
        · simpa using hax

/-- With unique peers, lookup depends only on which paths the registry holds. -/
theorem find_list_perm (l1 l2 : List downstream_path) (hp : l1.Perm l2)
    (hu : (l1.map downstream_path.ptr).Nodup) (q : strong_actor_ptr) :
    l1.find? (fun y => y.ptr == q) = l2.find? (fun y => y.ptr == q) := by
  have hu2 : (l2.map downstream_path.ptr).Nodup := (hp.map _).nodup_iff.1 hu
  cases h1 : l1.find? (fun y => y.ptr == q) with
  | none =>
    symm
    rw [List.find?_eq_none] at h1 ⊢
    intro y hy
    exact h1 y (hp.mem_iff.2 hy)
  | some x =>
    have hx : x ∈ l1 := List.mem_of_find?_eq_some h1
    have hq : x.ptr = q := by simpa using List.find?_some h1
    subst hq
    exact (find_list_of_nodup l2 x (hp.mem_iff.1 hx) hu2).symm

theorem remove_path_not_found (s : abstract_downstream) (ptr : strong_actor_ptr)
    (h : s.find ptr = none) : remove_path s ptr = (false, s) := by
  have hn : s.paths_.findIdx? (fun x => x.ptr == ptr) = none := by
    rw [List.findIdx?_eq_none_iff]
    intro x hx
    simpa using (find_eq_none_iff s ptr).1 h x hx
  unfold remove_path
  rw [hn]

theorem getLast_dropLast_perm (b : List downstream_path) :
    (b.getLast?.toList ++ b.dropLast).Perm b := by
  rcases List.eq_nil_or_concat b with hb | ⟨c, y, hb⟩
  · subst hb
    simp
  · subst hb
    rw [List.concat_eq_append, List.getLast?_concat, List.dropLast_concat]
    simpa using (List.perm_append_singleton y c).symm

theorem swap_pop_perm (a b : List downstream_path) (x : downstream_path) :
    (a ++ (b.getLast?.toList ++ b.dropLast) ++ [x]).Perm (a ++ x :: b) := by
  rw [List.append_assoc]
  refine List.Perm.append_left a ?_
  refine (List.perm_append_singleton x _).trans ?_
  exact List.Perm.cons x (getLast_dropLast_perm b)

/-! ## close, abort and send_batch in closed form -/

theorem foldl_send_as (l : List downstream_path) (s : abstract_downstream)
    (f : downstream_path → Bool) (m : stream_msg) :
    l.foldl (fun acc x => if f x = true then send_as acc x.ptr m else acc) s
      = { s with outbox := s.outbox ++ (l.filter f).map (fun x => (x.ptr, m)) } := by
  induction l generalizing s with
  | nil => simp
  | cons a l ih =>
    rw [List.foldl_cons, ih]
    by_cases ha : f a = true
    · simp [ha, send_as, List.filter_cons]
    · simp [ha, List.filter_cons]

theorem close_eq (s : abstract_downstream) :
    close s = { s with
      paths_ := [],
      outbox := s.outbox ++ s.paths_.map
        (fun x => (x.ptr, { sid := s.sid_, content := stream_msg_content.close })) } := by
  have h := foldl_send_as s.paths_ s (fun _ => true)
    { sid := s.sid_, content := stream_msg_content.close }
  simp only [if_true, List.filter_true] at h
  unfold close
  rw [h]

theorem abort_eq (s : abstract_downstream) (cause : strong_actor_ptr) (reason : error) :
    abort s cause reason = { s with
      outbox := s.outbox ++ (s.paths_.filter (fun x => decide (x.ptr ≠ cause))).map
        (fun x => (x.ptr, { sid := s.sid_, content := stream_msg_content.abort reason })) } := by
  have h := foldl_send_as s.paths_ s (fun x => decide (x.ptr ≠ cause))
    { sid := s.sid_, content := stream_msg_content.abort reason }
  simp only [decide_eq_true_eq] at h
  unfold abort
  exact h

theorem send_batch_ptr (s : abstract_downstream) (dest : downstream_path) (chunk_size : Nat)
    (chunk : message) : (send_batch s dest chunk_size chunk).1.ptr = dest.ptr := by
  unfold send_batch
  by_cases h : dest.redeployable = true <;> simp [h]

theorem send_batch_at_ptrs (s : abstract_downstream) (i chunk_size : Nat) (chunk : message) :
    (send_batch_at s i chunk_size chunk).paths_.map downstream_path.ptr
      = s.paths_.map downstream_path.ptr := by
  unfold send_batch_at
  cases h : s.paths_[i]? with
  | none => rfl
  | some dest =>
    simp only []
    apply List.ext_getElem?
    intro n
    simp only [List.getElem?_map, List.getElem?_set]
    by_cases hn : i = n
    · subst hn
      have hi : i < s.paths_.length := (List.getElem?_eq_some.1 h).1
      simp [hi, h, send_batch_ptr]
    · simp [hn]

/-! ## sort_by_credit -/

theorem sort_insert_perm (cmp : downstream_path → downstream_path → Bool)
    (a : downstream_path) (l : List downstream_path) :
    (sort_insert cmp a l).Perm (a :: l) := by
  induction l with
  | nil => simp [sort_insert]
  | cons b l ih =>
    unfold sort_insert
    by_cases h : cmp b a = true
    · rw [if_pos h]
      exact (List.Perm.cons b ih).trans (List.Perm.swap a b l)
    · rw [if_neg h]

theorem std_sort_perm (cmp : downstream_path → downstream_path → Bool)
    (l : List downstream_path) : (std_sort cmp l).Perm l := by
  induction l with
  | nil => simp [std_sort]
  | cons a l ih =>
    unfold std_sort
    exact (sort_insert_perm cmp a _).trans (List.Perm.cons a ih)

/-! ## Uniqueness of peers along every run -/

theorem unique_peers_add_path (credit0 : Nat) (s : abstract_downstream)
    (ptr : strong_actor_ptr) (filter : topics) (redeployable : Bool) (hu : unique_peers s) :
    unique_peers (add_path credit0 s ptr filter redeployable).2 := by
  unfold add_path
  by_cases h : s.paths_.all (fun x => !(x.ptr == ptr)) = true
  · rw [if_pos h]
    have hall := (all_ne_eq_true_iff _ _).1 h
    unfold unique_peers at hu ⊢
    simp only [recalculate_active_filters, List.map_append, List.map_cons, List.map_nil]
    rw [List.nodup_append]
    refine ⟨hu, List.nodup_singleton _, ?_⟩
    intro a ha hb
    simp only [List.mem_singleton] at hb
    obtain ⟨q, hq, hqa⟩ := List.mem_map.1 ha
    apply hall q hq
    rw [hqa, hb]
    rfl
  · rw [if_neg h]
    exact hu

theorem unique_peers_remove_path (s : abstract_downstream) (ptr : strong_actor_ptr)
    (hu : unique_peers s) : unique_peers (remove_path s ptr).2 := by
  cases hf : s.find ptr with
  | none =>
    rw [remove_path_not_found s ptr hf]
    exact hu
  | some x0 =>
    obtain ⟨a, x, b, hs, hx, ha, _⟩ := find_split s ptr (by rw [hf]; rfl)
    rw [remove_path_of_split s a b x ptr hs hx ha]
    unfold unique_peers at hu ⊢
    have hp := swap_pop_perm a b x
    rw [hs] at hu
    have hn := ((hp.map downstream_path.ptr).nodup_iff).2 hu
    rw [List.map_append] at hn
    exact (List.nodup_append.1 hn).1

theorem unique_peers_step (credit0 : Nat) (s : abstract_downstream) (o : op)
    (hu : unique_peers s) : unique_peers (step credit0 s o) := by
  cases o with
  | add_path ptr filter redeployable => exact unique_peers_add_path credit0 s ptr filter _ hu
  | remove_path ptr => exact unique_peers_remove_path s ptr hu
  | close =>
    show unique_peers (close s)
    rw [close_eq]
    exact List.nodup_nil
  | abort cause reason =>
    show unique_peers (abort s cause reason)
    rw [abort_eq]
    exact hu
  | send_batch i chunk_size chunk =>
    show ((send_batch_at s i chunk_size chunk).paths_.map downstream_path.ptr).Nodup
    rw [send_batch_at_ptrs]
    exact hu
  | sort_by_credit =>
    show ((sort_by_credit s).paths_.map downstream_path.ptr).Nodup
    exact (((std_sort_perm _ s.paths_).map downstream_path.ptr).nodup_iff).2 hu

theorem unique_peers_run (credit0 : Nat) (ops : List op) (s : abstract_downstream)
    (hu : unique_peers s) : unique_peers (run credit0 s ops) := by
  induction ops generalizing s with
  | nil => exact hu
  | cons o ops ih =>
    unfold run
    rw [List.foldl_cons]
    exact ih _ (unique_peers_step credit0 s o hu)

theorem unique_peers_of_reachable (credit0 : Nat) (sid : stream_id) (s : abstract_downstream)
    (h : reachable credit0 sid s) : unique_peers s := by
  obtain ⟨ops, rfl⟩ := h
  exact unique_peers_run credit0 ops _ List.nodup_nil

/-- C3: in a state reached from the fresh downstream by any calls, `remove_path` of a peer
that has a path returns true, makes the registry one path shorter, leaves the peer without a
path, leaves the path found for every other peer as it was, and sends exactly one message,
a close message addressed to the removed peer. -/
theorem remove_path_found (credit0 : Nat) (sid : stream_id) (s : abstract_downstream)
    (hr : reachable credit0 sid s) (p : strong_actor_ptr) (h : (s.find p).isSome = true) :
    (remove_path s p).1 = true ∧
    (remove_path s p).2.paths_.length + 1 = s.paths_.length ∧
    (remove_path s p).2.find p = none ∧
    (∀ q : strong_actor_ptr, q ≠ p → (remove_path s p).2.find q = s.find q) ∧
    (remove_path s p).2.outbox
      = s.outbox ++ [(p, { sid := s.sid_, content := stream_msg_content.close })] := by
  have hu := unique_peers_of_reachable credit0 sid s hr
  obtain ⟨a, x, b, hs, hx, ha, _⟩ := find_split s p h
  rw [remove_path_of_split s a b x p hs hx ha]
  have hp := swap_pop_perm a b x
  unfold unique_peers at hu
  rw [hs] at hu
  have hn := ((hp.map downstream_path.ptr).nodup_iff).2 hu
  rw [List.map_append, List.nodup_append] at hn
  refine ⟨rfl, ?_, ?_, ?_, rfl⟩
  · show (a ++ (b.getLast?.toList ++ b.dropLast)).length + 1 = s.paths_.length
    rw [hs, ← hp.length_eq, List.length_append (a ++ (b.getLast?.toList ++ b.dropLast)) [x]]
    rfl
  · rw [find_eq_none_iff]
    intro y hy hyp
    have hy2 : y ∈ a ++ (b.getLast?.toList ++ b.dropLast) := hy
    apply hn.2.2 (List.mem_map_of_mem downstream_path.ptr hy2)
    simp [hyp, hx]
  · intro q hq
    have e1 : (send_as { s with paths_ := a ++ (b.getLast?.toList ++ b.dropLast) } p
        { sid := s.sid_, content := stream_msg_content.close }).find q
        = (a ++ (b.getLast?.toList ++ b.dropLast)).find? (fun y => y.ptr == q) := rfl
    have e2 : s.find q = (a ++ x :: b).find? (fun y => y.ptr == q) := by
      unfold find
      rw [hs]
    have hxq : (x.ptr == q) = false := by
      simpa [hx] using (Ne.symm hq)
    have e3 : (a ++ (b.getLast?.toList ++ b.dropLast) ++ [x]).find? (fun y => y.ptr == q)
        = (a ++ (b.getLast?.toList ++ b.dropLast)).find? (fun y => y.ptr == q) := by
      rw [List.find?_append]
      simp [List.find?_cons, hxq]
    rw [e1, e2, ← e3]
    refine find_list_perm _ _ hp ?_ q
    exact ((hp.map downstream_path.ptr).nodup_iff).2 hu

/-- Witness for C3: peers 7, 8, 9 are added and 7 is removed. -/
theorem remove_path_found_witness :
    reachable 0 1 (run 0 (init 1)
      [op.add_path 7 [1] false, op.add_path 8 [2] true, op.add_path 9 [] false]) ∧
    (remove_path (run 0 (init 1)
      [op.add_path 7 [1] false, op.add_path 8 [2] true, op.add_path 9 [] false]) 7).2.paths_
      = [downstream_path.make 0 9 [] false, downstream_path.make 0 8 [2] true] ∧
    (remove_path (run 0 (init 1)
      [op.add_path 7 [1] false, op.add_path 8 [2] true, op.add_path 9 [] false]) 7).2.outbox
      = [] ++ [(7, { sid := 1, content := stream_msg_content.close })] :=
  ⟨⟨_, rfl⟩, by decide,
   (remove_path_found 0 1 (run 0 (init 1)
      [op.add_path 7 [1] false, op.add_path 8 [2] true, op.add_path 9 [] false])
      ⟨_, rfl⟩ 7 (by decide)).2.2.2.2⟩

/-- C4: for a peer without a path `remove_path` returns false and gives back the state as it
was (registry, active filter set, messages sent); and on every state `remove_path` returns
true exactly when `find` reports a path for the peer. -/
theorem remove_path_missing (s : abstract_downstream) (ptr : strong_actor_ptr) :
    (s.find ptr = none → remove_path s ptr = (false, s)) ∧
    ((remove_path s ptr).1 = true ↔ (s.find ptr).isSome = true) := by
  refine ⟨remove_path_not_found s ptr, ?_⟩
  cases hf : s.find ptr with
  | none =>
    rw [remove_path_not_found s ptr hf]
    simp
  | some x0 =>
    obtain ⟨a, x, b, hs, hx, ha, _⟩ := find_split s ptr (by rw [hf]; rfl)
    rw [remove_path_of_split s a b x ptr hs hx ha]
    simp

/-- Witness for C4: removing peer 5 from the empty registry and from a registry that holds
only peer 7. -/
theorem remove_path_missing_witness :
    (init 1).find 5 = none ∧ remove_path (init 1) 5 = (false, init 1) ∧
    (add_path 0 (init 1) 7 [3] false).2.find 5 = none ∧
    remove_path (add_path 0 (init 1) 7 [3] false).2 5
      = (false, (add_path 0 (init 1) 7 [3] false).2) :=
  ⟨by decide, (remove_path_missing (init 1) 5).1 (by decide), by decide,
   (remove_path_missing (add_path 0 (init 1) 7 [3] false).2 5).1 (by decide)⟩

/-- C10: in every state reached from the fresh downstream by any sequence of `add_path`,
`remove_path`, `close`, `abort`, `send_batch` and `sort_by_credit` calls, paths at two
different positions of the registry have different peers. -/
theorem unique_peer_identity (credit0 : Nat) (sid : stream_id) (s : abstract_downstream)
    (hr : reachable credit0 sid s) (i j : Nat) (hi : i < s.paths_.length)
    (hj : j < s.paths_.length) (hij : i ≠ j) : s.paths_[i].ptr ≠ s.paths_[j].ptr := by
  have hu := unique_peers_of_reachable credit0 sid s hr
  unfold unique_peers at hu
  intro he
  have hi2 : i < (s.paths_.map downstream_path.ptr).length := by simpa using hi
  have hj2 : j < (s.paths_.map downstream_path.ptr).length := by simpa using hj
  have e : (s.paths_.map downstream_path.ptr)[i] = (s.paths_.map downstream_path.ptr)[j] := by
    simpa using he
  exact hij (hu.getElem_inj_iff.1 e)

/-- Witness for C10: a run that tries to add peer 7 twice. -/
theorem unique_peer_identity_witness :
    reachable 0 1 (run 0 (init 1)
      [op.add_path 7 [1] false, op.add_path 8 [2] true, op.add_path 7 [3] true,
       op.send_batch 0 4 [5], op.sort_by_credit, op.abort 8 2]) ∧
    (0 : Nat) ≠ 1 ∧
    ((run 0 (init 1)
      [op.add_path 7 [1] false, op.add_path 8 [2] true, op.add_path 7 [3] true,
       op.send_batch 0 4 [5], op.sort_by_credit, op.abort 8 2]).paths_.map downstream_path.ptr
        = [7, 8]) ∧
    (run 0 (init 1)
      [op.add_path 7 [1] false, op.add_path 8 [2] true, op.add_path 7 [3] true,
       op.send_batch 0 4 [5], op.sort_by_credit, op.abort 8 2]).paths_[0].ptr ≠
    (run 0 (init 1)
      [op.add_path 7 [1] false, op.add_path 8 [2] true, op.add_path 7 [3] true,
       op.send_batch 0 4 [5], op.sort_by_credit, op.abort 8 2]).paths_[1].ptr :=
  ⟨⟨_, rfl⟩, by decide, by decide,
   unique_peer_identity 0 1 _ ⟨_, rfl⟩ 0 1 (by decide) (by decide) (by decide)⟩

/-! ## close and abort -/

/-- C5: `close` appends to the messages sent exactly one close message per path, addressed
to the peer of that path, in registry order (so as many messages as there are paths and
none to a peer without a path), and leaves the registry empty; a second `close` right after
it sends nothing and leaves the state as it is. -/
theorem close_notifies_each_path_once (s : abstract_downstream) :
    (close s).outbox = s.outbox ++ s.paths_.map
      (fun x => (x.ptr, { sid := s.sid_, content := stream_msg_content.close })) ∧
    ((close s).outbox.drop s.outbox.length).length = s.paths_.length ∧
    (close s).paths_ = [] ∧
    close (close s) = close s ∧
    (close (close s)).outbox = (close s).outbox := by
  have h2 : close (close s) = close s := by
    rw [close_eq (close s), close_eq s]
    simp
  refine ⟨?_, ?_, ?_, h2, by rw [h2]⟩
  · rw [close_eq]
  · rw [close_eq]
    simp
  · rw [close_eq]

/-- C6: `abort` appends to the messages sent exactly one abort message carrying `reason`
for each path whose peer is not `cause`, addressed to that peer, in registry order; none of
the new messages is addressed to `cause`; the registry, the active filter set and the
stream id stay as they were. -/
theorem abort_notifies_all_but_cause (s : abstract_downstream) (cause : strong_actor_ptr)
    (reason : error) :
    (abort s cause reason).outbox =
      s.outbox ++ (s.paths_.filter (fun x => decide (x.ptr ≠ cause))).map
        (fun x => (x.ptr, { sid := s.sid_, content := stream_msg_content.abort reason })) ∧
    (∀ e ∈ (abort s cause reason).outbox.drop s.outbox.length, e.1 ≠ cause) ∧
    (abort s cause reason).paths_ = s.paths_ ∧
    (abort s cause reason).active_filters_ = s.active_filters_ ∧
    (abort s cause reason).sid_ = s.sid_ := by
  rw [abort_eq]
  refine ⟨rfl, ?_, rfl, rfl, rfl⟩
  intro e he
  simp only [List.drop_left] at he
  obtain ⟨x, hx, rfl⟩ := List.mem_map.1 he
  simpa using (List.mem_filter.1 hx).2

/-! ## send_batch -/

theorem send_batch_eq (s : abstract_downstream) (dest : downstream_path) (chunk_size : Nat)
    (chunk : message) :
    send_batch s dest chunk_size chunk =
      ({ dest with
          next_batch_id := dest.next_batch_id + 1,
          unacknowledged_batches := dest.unacknowledged_batches ++
            (if dest.redeployable = true then
              [(dest.next_batch_id,
                { xs_size := to_int32 chunk_size, xs := chunk, id := dest.next_batch_id })]
             else []) },
       { s with outbox := (s.outbox ++ [(dest.ptr,
          { sid := s.sid_, content := (stream_msg_content.batch
            { xs_size := to_int32 chunk_size, xs := chunk, id := dest.next_batch_id }) })]) }) := by
  unfold send_batch send_as
  by_cases h : dest.redeployable = true <;> simp [h]

theorem send_batches_eq (cs : List (Nat × message)) (s : abstract_downstream)
    (dest : downstream_path) :
    send_batches s dest cs =
      ({ dest with
          next_batch_id := dest.next_batch_id + cs.length,
          unacknowledged_batches := dest.unacknowledged_batches ++
            (if dest.redeployable = true then
              (batches_from dest.next_batch_id cs).map (fun b => (b.id, b))
             else []) },
       { s with outbox := (s.outbox ++ (batches_from dest.next_batch_id cs).map
          (fun b => (dest.ptr, { sid := s.sid_, content := stream_msg_content.batch b }))) }) := by
  induction cs generalizing s dest with
  | nil => simp [send_batches, batches_from]
  | cons c cs ih =>
    unfold send_batches
    rw [ih, send_batch_eq]
    by_cases h : dest.redeployable = true
    · simp [h, batches_from, List.enumFrom_cons, Nat.add_assoc, Nat.add_comm 1]
    · simp [h, batches_from, List.enumFrom_cons, Nat.add_assoc, Nat.add_comm 1]

theorem batches_from_ids (n : Nat) (cs : List (Nat × message)) :
    (batches_from n cs).map stream_msg_batch.id = List.range' n cs.length := by
  induction cs generalizing n with
  | nil => simp [batches_from]
  | cons c cs ih =>
    have h := ih (n + 1)
    simp only [batches_from, List.enumFrom_cons, List.map_cons, List.length_cons,
      List.range'_succ] at h ⊢
    rw [h]

/-- C7: let `dest` be the path that `add_path` has just created for a peer.  Sending the
chunks `cs` on it with successive `send_batch` calls dispatches to the peer exactly one
batch per call, in call order, the k-th with id `k-1` (ids 0, 1, 2, ...); the counter ends
at the number of calls and every single call raises it by one; a redeployable path ends with
the pairs `(id, batch)` of the batches sent, once each in sending order, in its
unacknowledged queue, and any other path ends with the queue as it was (empty). -/
theorem send_batch_sequencing (credit0 : Nat) (s : abstract_downstream)
    (ptr : strong_actor_ptr) (filter : topics) (redeployable : Bool) (h : s.find ptr = none)
    (dest : downstream_path)
    (hd : (add_path credit0 s ptr filter redeployable).2.find ptr = some dest)
    (t : abstract_downstream) (cs : List (Nat × message)) :
    (send_batches t dest cs).2.outbox = t.outbox ++ (batches_from 0 cs).map
      (fun b => (ptr, { sid := t.sid_, content := stream_msg_content.batch b })) ∧
    (batches_from 0 cs).map stream_msg_batch.id = List.range cs.length ∧
    (send_batches t dest cs).1.next_batch_id = cs.length ∧
    (∀ (u : abstract_downstream) (d : downstream_path) (n : Nat) (c : message),
      (send_batch u d n c).1.next_batch_id = d.next_batch_id + 1) ∧
    (redeployable = true → (send_batches t dest cs).1.unacknowledged_batches
      = (batches_from 0 cs).map (fun b => (b.id, b))) ∧
    (redeployable = false → (send_batches t dest cs).1.unacknowledged_batches
      = dest.unacknowledged_batches ∧ dest.unacknowledged_batches = []) := by
  have hpd : downstream_path.make credit0 ptr filter redeployable = dest :=
    Option.some.inj ((find_add_path_of_fresh credit0 s ptr filter redeployable h).symm.trans hd)
  subst hpd
  rw [send_batches_eq]
  refine ⟨rfl, ?_, ?_, ?_, ?_, ?_⟩
  · rw [batches_from_ids, List.range_eq_range']
  · simp [downstream_path.make]
  · intro u d n c
    rw [send_batch_eq]
  · intro hr
    simp [hr, downstream_path.make]
  · intro hr
    simp [hr, downstream_path.make]

/-- Witness for C7: three batches on a fresh redeployable path of peer 7. -/
theorem send_batch_sequencing_witness :
    (init 1).find 7 = none ∧
    (add_path 0 (init 1) 7 [3] true).2.find 7 = some (downstream_path.make 0 7 [3] true) ∧
    (send_batches (add_path 0 (init 1) 7 [3] true).2 (downstream_path.make 0 7 [3] true)
      [(2, [10, 11]), (1, [12]), (3, [13, 14, 15])]).1.next_batch_id = 3 ∧
    (batches_from 0 [(2, [10, 11]), (1, [12]), (3, [13, 14, 15])]).map stream_msg_batch.id
      = [0, 1, 2] ∧
    ((send_batches (add_path 0 (init 1) 7 [3] true).2 (downstream_path.make 0 7 [3] true)
      [(2, [10, 11]), (1, [12]), (3, [13, 14, 15])]).1.unacknowledged_batches.map Prod.fst
      = [0, 1, 2]) :=
  ⟨by decide, by decide,
   (send_batch_sequencing 0 (init 1) 7 [3] true (by decide)
      (downstream_path.make 0 7 [3] true) (by decide) (add_path 0 (init 1) 7 [3] true).2
      [(2, [10, 11]), (1, [12]), (3, [13, 14, 15])]).2.2.1,
   by decide, by decide⟩

/-! ## Credit aggregates -/

theorem foldl_add_mod (l : List downstream_path) (acc : Nat) :
    (l.foldl (fun x y => (x + y.open_credit) % 2 ^ 64) acc) % 2 ^ 64
      = (acc + (l.map downstream_path.open_credit).sum) % 2 ^ 64 := by
  induction l generalizing acc with
  | nil => simp
  | cons a l ih =>
    rw [List.foldl_cons, ih, List.map_cons, List.sum_cons, Nat.mod_add_mod, Nat.add_assoc]

theorem foldl_add_lt (l : List downstream_path) (acc : Nat) (h : acc < 2 ^ 64) :
    l.foldl (fun x y => (x + y.open_credit) % 2 ^ 64) acc < 2 ^ 64 := by
  induction l generalizing acc with
  | nil => exact h
  | cons a l ih =>
    rw [List.foldl_cons]
    exact ih _ (Nat.mod_lt _ (by norm_num))

theorem total_credit_eq (s : abstract_downstream) :
    total_credit s = (s.paths_.map downstream_path.open_credit).sum % 2 ^ 64 := by
  unfold total_credit fold_paths
  have h1 := foldl_add_mod s.paths_ 0
  have h2 := foldl_add_lt s.paths_ 0 (by norm_num)
  rw [Nat.mod_eq_of_lt h2, Nat.zero_add] at h1
  exact h1

theorem foldl_max_spec (l : List downstream_path) (acc : Nat) :
    acc ≤ l.foldl (fun x y => max x y.open_credit) acc ∧
    (∀ p ∈ l, p.open_credit ≤ l.foldl (fun x y => max x y.open_credit) acc) ∧
    (l.foldl (fun x y => max x y.open_credit) acc = acc ∨
      ∃ p ∈ l, p.open_credit = l.foldl (fun x y => max x y.open_credit) acc) := by
  induction l generalizing acc with
  | nil => simp
  | cons a l ih =>
    obtain ⟨h1, h2, h3⟩ := ih (max acc a.open_credit)
    rw [List.foldl_cons]
    refine ⟨le_trans (le_max_left _ _) h1, ?_, ?_⟩
    · intro p hp
      rcases List.mem_cons.1 hp with rfl | hm
      · exact le_trans (le_max_right _ _) h1
      · exact h2 p hm
    · rcases h3 with h3 | ⟨p, hp, hpe⟩
      · rcases le_total acc a.open_credit with hle | hle
        · right
          exact ⟨a, List.mem_cons_self _ _, by rw [h3, max_eq_right hle]⟩
        · left
          rw [h3, max_eq_left hle]
      · right
        exact ⟨p, List.mem_cons_of_mem _ hp, hpe⟩

theorem foldl_min_spec (l : List downstream_path) (acc : Nat) :
    l.foldl (fun x y => min x y.open_credit) acc ≤ acc ∧
    (∀ p ∈ l, l.foldl (fun x y => min x y.open_credit) acc ≤ p.open_credit) ∧
    (l.foldl (fun x y => min x y.open_credit) acc = acc ∨
      ∃ p ∈ l, p.open_credit = l.foldl (fun x y => min x y.open_credit) acc) := by
  induction l generalizing acc with
  | nil => simp
  | cons a l ih =>
    obtain ⟨h1, h2, h3⟩ := ih (min acc a.open_credit)
    rw [List.foldl_cons]
    refine ⟨le_trans h1 (min_le_left _ _), ?_, ?_⟩
    · intro p hp
      rcases List.mem_cons.1 hp with rfl | hm
      · exact le_trans h1 (min_le_right _ _)
      · exact h2 p hm
    · rcases h3 with h3 | ⟨p, hp, hpe⟩
      · rcases le_total acc a.open_credit with hle | hle
        · left
          rw [h3, min_eq_left hle]
        · right
          exact ⟨a, List.mem_cons_self _ _, by rw [h3, min_eq_right hle]⟩
      · right
        exact ⟨p, List.mem_cons_of_mem _ hp, hpe⟩

/-- C8, as the claim states it, fails: with two paths of credit `2^63` each, every credit is
a `size_t` value, the sum of the credits is `2^64`, and `total_credit` returns 0. -/
theorem total_credit_wraps :
    (∀ p ∈ large_credit_state.paths_, p.open_credit ≤ size_t_max) ∧
    (large_credit_state.paths_.map downstream_path.open_credit).sum = 2 ^ 64 ∧
    total_credit large_credit_state = 0 ∧
    total_credit large_credit_state
      ≠ (large_credit_state.paths_.map downstream_path.open_credit).sum := by
  refine ⟨?_, ?_, ?_, ?_⟩
  · intro p hp
    simp only [large_credit_state, List.mem_cons, List.mem_singleton, List.not_mem_nil,
      or_false] at hp
    rcases hp with rfl | rfl <;> simp [downstream_path.make, size_t_max]
  · simp [large_credit_state, downstream_path.make]
  · simp [total_credit, fold_paths, large_credit_state, downstream_path.make]
  · simp [total_credit, fold_paths, large_credit_state, downstream_path.make]

/-- C8, amended: on a registry whose credits are `size_t` values, `total_credit` is the sum
of the credits of all paths reduced modulo `2^64`, hence the sum itself whenever the sum is
a `size_t` value; `max_credit` is at least every credit, is the credit of some path when
there is a path, and is 0 on the empty registry; `min_credit` is at most every credit, is
the credit of some path when there is a path, and is the largest `size_t` value on the empty
registry.  The three are functions of the state and return no new state.  On the registry
with credits 5, 8, 2 they give total 15, max 8 and min 2. -/
theorem credit_aggregates (s : abstract_downstream)
    (hw : ∀ p ∈ s.paths_, p.open_credit ≤ size_t_max) :
    total_credit s = (s.paths_.map downstream_path.open_credit).sum % 2 ^ 64 ∧
    ((s.paths_.map downstream_path.open_credit).sum ≤ size_t_max →
      total_credit s = (s.paths_.map downstream_path.open_credit).sum) ∧
    (∀ p ∈ s.paths_, p.open_credit ≤ max_credit s) ∧
    (s.paths_ ≠ [] → ∃ p ∈ s.paths_, p.open_credit = max_credit s) ∧
    (s.paths_ = [] → max_credit s = 0) ∧
    (∀ p ∈ s.paths_, min_credit s ≤ p.open_credit) ∧
    (s.paths_ ≠ [] → ∃ p ∈ s.paths_, p.open_credit = min_credit s) ∧
    (s.paths_ = [] → min_credit s = size_t_max) ∧
    (total_credit scenario_state = 15 ∧ max_credit scenario_state = 8 ∧
      min_credit scenario_state = 2) := by
  obtain ⟨_, hx2, hx3⟩ := foldl_max_spec s.paths_ 0
  obtain ⟨hn1, hn2, hn3⟩ := foldl_min_spec s.paths_ size_t_max
  refine ⟨total_credit_eq s, ?_, hx2, ?_, ?_, hn2, ?_, ?_, ?_⟩
  · intro hsum
    rw [total_credit_eq]
    apply Nat.mod_eq_of_lt
    have : size_t_max < 2 ^ 64 := by norm_num [size_t_max]
    omega
  · intro hne
    rcases hx3 with h0 | h
    · obtain ⟨a, l, hal⟩ := List.exists_cons_of_ne_nil hne
      have ha : a ∈ s.paths_ := by rw [hal]; exact List.mem_cons_self _ _
      refine ⟨a, ha, ?_⟩
      have hle := hx2 a ha
      show a.open_credit = s.paths_.foldl (fun x y => max x y.open_credit) 0
      omega
    · exact h
  · intro he
    simp [max_credit, fold_paths, he]
  · intro hne
    rcases hn3 with h0 | h
    · obtain ⟨a, l, hal⟩ := List.exists_cons_of_ne_nil hne
      have ha : a ∈ s.paths_ := by rw [hal]; exact List.mem_cons_self _ _
      refine ⟨a, ha, ?_⟩
      have hle := hn2 a ha
      have hwa := hw a ha
      show a.open_credit = s.paths_.foldl (fun x y => min x y.open_credit) size_t_max
      omega
    · exact h
  · intro he
    simp [min_credit, fold_paths, he]
  · refine ⟨?_, ?_, ?_⟩ <;>
      simp [total_credit, max_credit, min_credit, fold_paths, scenario_state,
        downstream_path.make, size_t_max]

/-- Witness for the amended C8: the registry of the scenario. -/
theorem credit_aggregates_witness :
    (∀ p ∈ scenario_state.paths_, p.open_credit ≤ size_t_max) ∧
    total_credit scenario_state
      = (scenario_state.paths_.map downstream_path.open_credit).sum % 2 ^ 64 :=
  ⟨by decide, (credit_aggregates scenario_state (by decide)).1⟩

/-! ## sort_by_credit orders the registry -/

theorem sort_insert_sorted (a : downstream_path) (l : List downstream_path)
    (hl : l.Pairwise (fun x y => x.open_credit ≥ y.open_credit)) :
    (sort_insert (fun x y => decide (x.open_credit > y.open_credit)) a l).Pairwise
      (fun x y => x.open_credit ≥ y.open_credit) := by
  induction l with
  | nil => simp [sort_insert]
  | cons b l ih =>
    obtain ⟨hb, hl2⟩ := List.pairwise_cons.1 hl
    unfold sort_insert
    by_cases h : b.open_credit > a.open_credit
    · rw [if_pos (decide_eq_true h)]
      refine List.pairwise_cons.2 ⟨?_, ih hl2⟩
      intro y hy
      rcases List.mem_cons.1 ((sort_insert_perm _ a l).mem_iff.1 hy) with rfl | hm
      · exact Nat.le_of_lt h
      · exact hb y hm
    · rw [if_neg (by simpa using h)]
      have hab : b.open_credit ≤ a.open_credit := Nat.le_of_not_lt h
      refine List.pairwise_cons.2 ⟨?_, hl⟩
      intro y hy
      rcases List.mem_cons.1 hy with rfl | hm
      · exact hab
      · exact le_trans (hb y hm) hab

theorem std_sort_sorted (l : List downstream_path) :
    (std_sort (fun x y => decide (x.open_credit > y.open_credit)) l).Pairwise
      (fun x y => x.open_credit ≥ y.open_credit) := by
  induction l with
  | nil => simp [std_sort]
  | cons a l ih =>
    unfold std_sort
    exact sort_insert_sorted a _ ih

/-- C9: after `sort_by_credit` the registry is a permutation of the registry before the
call (the same paths, none lost, duplicated or changed), every path has at least the credit
of every path after it, and the messages sent, the active filter set and the stream id are
as before.  The registry A(5), B(8), C(2) ends in the order B, A, C. -/
theorem sort_by_credit_sorts (s : abstract_downstream) :
    (sort_by_credit s).paths_.Perm s.paths_ ∧
    (sort_by_credit s).paths_.Pairwise (fun x y => x.open_credit ≥ y.open_credit) ∧
    (∀ (i j : Nat) (hi : i < (sort_by_credit s).paths_.length)
       (hj : j < (sort_by_credit s).paths_.length), i ≤ j →
       (sort_by_credit s).paths_[j].open_credit ≤ (sort_by_credit s).paths_[i].open_credit) ∧
    (sort_by_credit s).outbox = s.outbox ∧
    (sort_by_credit s).active_filters_ = s.active_filters_ ∧
    (sort_by_credit s).sid_ = s.sid_ ∧
    (sort_by_credit scenario_state).paths_.map downstream_path.ptr = [2, 1, 3] ∧
    (sort_by_credit scenario_state).paths_.map downstream_path.open_credit = [8, 5, 2] := by
  have hs := std_sort_sorted s.paths_
  refine ⟨std_sort_perm _ s.paths_, hs, ?_, rfl, rfl, rfl, by decide, by decide⟩
  intro i j hi hj hij
  rcases Nat.lt_or_eq_of_le hij with hlt | heq
  · exact List.pairwise_iff_getElem.1 hs i j hi hj hlt
  · subst heq
    exact Nat.le_refl _

/-- Witness for C9: in the sorted registry of the scenario the path at position 2 has at
most the credit of the path at position 0. -/
theorem sort_by_credit_sorts_witness :
    (0 : Nat) ≤ 2 ∧
    (sort_by_credit scenario_state).paths_[2].open_credit
      ≤ (sort_by_credit scenario_state).paths_[0].open_credit :=
  ⟨by decide,
   (sort_by_credit_sorts scenario_state).2.2.1 0 2 (by decide) (by decide) (by decide)⟩

/-! ## The active filter set after a removal -/

/-- C18: the code does not keep the active filter set equal to the filters of the registry.
After `add_path` of peer 7 with filter `[3]` and `remove_path` of peer 7 the registry is
empty while the active filter set still holds `[3]`: `remove_path` does not call
`recalculate_active_filters`, which `add_path` does. -/
theorem remove_path_leaves_stale_filter :
    reachable 0 1 (run 0 (init 1) [op.add_path 7 [3] false, op.remove_path 7]) ∧
    (run 0 (init 1) [op.add_path 7 [3] false, op.remove_path 7]).paths_ = [] ∧
    (run 0 (init 1) [op.add_path 7 [3] false, op.remove_path 7]).active_filters_ = {[3]} ∧
    ¬ (∀ f : topics,
        f ∈ (run 0 (init 1) [op.add_path 7 [3] false, op.remove_path 7]).active_filters_ ↔
        ∃ p ∈ (run 0 (init 1) [op.add_path 7 [3] false, op.remove_path 7]).paths_,
          p.filter = f) := by
  have h1 : (run 0 (init 1) [op.add_path 7 [3] false, op.remove_path 7]).paths_ = [] := by
    decide
  have h2 : (run 0 (init 1) [op.add_path 7 [3] false, op.remove_path 7]).active_filters_
      = {[3]} := by decide
  refine ⟨⟨_, rfl⟩, h1, h2, ?_⟩
  intro h
  have h3 := (h [3]).1 (by rw [h2]; exact Finset.mem_singleton_self _)
  rw [h1] at h3
  obtain ⟨p, hp, _⟩ := h3
  exact List.not_mem_nil p hp

/-! ## Shutdown notifications per registration -/

theorem add_path_of_present (credit0 : Nat) (s : abstract_downstream) (ptr : strong_actor_ptr)
    (filter : topics) (redeployable : Bool) (h : (s.find ptr).isSome = true) :
    add_path credit0 s ptr filter redeployable = (false, s) := by
  have hne : ¬ (s.paths_.all (fun x => !(x.ptr == ptr)) = true) := by
    rw [all_ne_eq_true_iff]
    obtain ⟨p, hp, hpp⟩ := (find_isSome_iff s ptr).1 h
    exact fun hall => hall p hp hpp
  unfold add_path
  rw [if_neg hne]

theorem closes_to_append (s : abstract_downstream) (p : strong_actor_ptr)
    (l : List (strong_actor_ptr × stream_msg)) :
    closes_to { s with outbox := s.outbox ++ l } p = closes_to s p
      + l.countP (fun e => decide (e.1 = p ∧ e.2.content = stream_msg_content.close)) := by
  simp [closes_to, List.countP_append]

theorem send_batch_at_closes (s : abstract_downstream) (i chunk_size : Nat) (chunk : message)
    (p : strong_actor_ptr) :
    closes_to (send_batch_at s i chunk_size chunk) p = closes_to s p := by
  unfold send_batch_at
  cases h : s.paths_[i]? with
  | none => rfl
  | some dest =>
    simp only [send_batch_eq]
    simp [closes_to, List.countP_append, List.countP_cons]

theorem conservation_step (credit0 : Nat) (s : abstract_downstream) (o : op)
    (p : strong_actor_ptr) :
    closes_to (step credit0 s o) p + paths_of (step credit0 s o) p
      = closes_to s p + paths_of s p + registrations credit0 p s [o] := by
  cases o with
  | add_path ptr filter redeployable =>
    show closes_to (add_path credit0 s ptr filter redeployable).2 p
        + paths_of (add_path credit0 s ptr filter redeployable).2 p
      = closes_to s p + paths_of s p
        + ((if ptr = p ∧ (add_path credit0 s ptr filter redeployable).1 = true then 1 else 0)
            + 0)
    cases hf : s.find ptr with
    | none =>
      rw [add_path_of_fresh credit0 s ptr filter redeployable hf]
      by_cases hp : ptr = p
      · simp [closes_to, paths_of, recalculate_active_filters, downstream_path.make, hp,
          Nat.add_assoc]
      · simp [closes_to, paths_of, recalculate_active_filters, downstream_path.make, hp,
          List.count_singleton]
    | some x0 =>
      rw [add_path_of_present credit0 s ptr filter redeployable (by rw [hf]; rfl)]
      simp
  | remove_path ptr =>
    show closes_to (remove_path s ptr).2 p + paths_of (remove_path s ptr).2 p
      = closes_to s p + paths_of s p + 0
    cases hf : s.find ptr with
    | none =>
      rw [remove_path_not_found s ptr hf]
      rfl
    | some x0 =>
      obtain ⟨a, x, b, hs, hx, ha, _⟩ := find_split s ptr (by rw [hf]; rfl)
      rw [remove_path_of_split s a b x ptr hs hx ha]
      have hp := ((swap_pop_perm a b x).map downstream_path.ptr).count_eq p
      have hc : paths_of s p = (List.map downstream_path.ptr (a ++ x :: b)).count p := by
        unfold paths_of
        rw [hs]
      rw [hc, ← hp]
      by_cases hpp : ptr = p
      · simp [closes_to, paths_of, send_as, hx, hpp, List.countP_append]
        omega
      · simp [closes_to, paths_of, send_as, hx, hpp, List.countP_append, List.count_singleton]
  | close =>
    show closes_to (close s) p + paths_of (close s) p = closes_to s p + paths_of s p + 0
    rw [close_eq]
    have hc : List.countP
        ((fun e : strong_actor_ptr × stream_msg =>
            decide (e.1 = p ∧ e.2.content = stream_msg_content.close)) ∘
          fun x : downstream_path =>
            (x.ptr, { sid := s.sid_, content := stream_msg_content.close }))
        s.paths_
        = List.countP ((fun x => x == p) ∘ downstream_path.ptr) s.paths_ := by
      apply List.countP_congr
      intro x _
      simp
    simp only [paths_of, closes_to, List.map_nil, List.count_nil, List.countP_append,
      List.countP_map, Nat.add_zero, List.count, hc, List.countP_nil]
  | abort cause reason =>
    show closes_to (abort s cause reason) p + paths_of (abort s cause reason) p
      = closes_to s p + paths_of s p + 0
    rw [abort_eq]
    simp [paths_of, closes_to, List.countP_append]
  | send_batch i chunk_size chunk =>
    show closes_to (send_batch_at s i chunk_size chunk) p
        + paths_of (send_batch_at s i chunk_size chunk) p
      = closes_to s p + paths_of s p + 0
    rw [send_batch_at_closes]
    unfold paths_of
    rw [send_batch_at_ptrs]
    rfl
  | sort_by_credit =>
    show closes_to (sort_by_credit s) p + paths_of (sort_by_credit s) p
      = closes_to s p + paths_of s p + 0
    have hp := ((std_sort_perm (fun x y => decide (x.open_credit > y.open_credit))
      s.paths_).map downstream_path.ptr).count_eq p
    unfold paths_of
    unfold sort_by_credit
    simp only [closes_to, Nat.add_zero]
    rw [hp]

theorem registrations_singleton (credit0 : Nat) (p : strong_actor_ptr)
    (s : abstract_downstream) (o : op) (ops : List op) :
    registrations credit0 p s (o :: ops)
      = registrations credit0 p s [o] + registrations credit0 p (step credit0 s o) ops := by
  cases o <;> simp [registrations]

theorem conservation_run (credit0 : Nat) (ops : List op) (s : abstract_downstream)
    (p : strong_actor_ptr) :
    closes_to (run credit0 s ops) p + paths_of (run credit0 s ops) p
      = closes_to s p + paths_of s p + registrations credit0 p s ops := by
  induction ops generalizing s with
  | nil => simp [run, registrations]
  | cons o ops ih =>
    have h1 := ih (step credit0 s o)
    have h2 := conservation_step credit0 s o p
    have h3 := registrations_singleton credit0 p s o ops
    have h4 : run credit0 s (o :: ops) = run credit0 (step credit0 s o) ops := rfl
    rw [h4, h1, h2, h3]
    omega

/-- C20, as the claim states it, fails: peer 7 is registered once and two `abort` calls for
another cause follow; peer 7 has then received two shutdown notifications. -/
theorem abort_twice_notifies_twice :
    reachable 0 1 (run 0 (init 1) [op.add_path 7 [] false, op.abort 9 1, op.abort 9 1]) ∧
    registrations 0 7 (init 1) [op.add_path 7 [] false, op.abort 9 1, op.abort 9 1] = 1 ∧
    shutdowns_to (run 0 (init 1) [op.add_path 7 [] false, op.abort 9 1, op.abort 9 1]) 7 = 2 ∧
    ¬ (shutdowns_to (run 0 (init 1) [op.add_path 7 [] false, op.abort 9 1, op.abort 9 1]) 7
        ≤ 1) :=
  ⟨⟨_, rfl⟩, by decide, by decide, by decide⟩

/-- C20, amended: over every sequence of calls from the fresh downstream and for every peer,
the number of close notifications sent to the peer plus the number of paths the peer has in
the registry equals the number of `add_path` calls that registered a path for it; so a peer
gets at most one close notification per registration, and it has at most one path.  Abort
notifications are outside this count. -/
theorem close_once_per_registration (credit0 : Nat) (sid : stream_id) (ops : List op)
    (p : strong_actor_ptr) :
    closes_to (run credit0 (init sid) ops) p + paths_of (run credit0 (init sid) ops) p
      = registrations credit0 p (init sid) ops ∧
    closes_to (run credit0 (init sid) ops) p ≤ registrations credit0 p (init sid) ops ∧
    paths_of (run credit0 (init sid) ops) p ≤ 1 := by
  have h := conservation_run credit0 ops (init sid) p
  have h0 : closes_to (init sid) p + paths_of (init sid) p = 0 := by
    simp [closes_to, paths_of, init]
  have hu := unique_peers_of_reachable credit0 sid (run credit0 (init sid) ops) ⟨ops, rfl⟩
  have h1 : paths_of (run credit0 (init sid) ops) p ≤ 1 :=
    List.nodup_iff_count_le_one.1 hu p
  refine ⟨by omega, by omega, h1⟩

end abstract_downstream

namespace stream_gatherer_impl

/-! ## The gatherer: lookup and add_path -/

theorem g_find_eq_none_iff (s : stream_gatherer_impl) (slot : stream_slot)
    (hdl : strong_actor_ptr) :
    s.find slot hdl = none ↔ ∀ p ∈ s.paths_, p.key ≠ (slot, hdl) := by
  simp [find, List.find?_eq_none, inbound_path.key, Prod.ext_iff]

theorem g_find_isSome_iff (s : stream_gatherer_impl) (slot : stream_slot)
    (hdl : strong_actor_ptr) :
    (s.find slot hdl).isSome = true ↔ ∃ p ∈ s.paths_, p.key = (slot, hdl) := by
  simp [find, List.find?_isSome, inbound_path.key, Prod.ext_iff]

theorem update_path_append_new (l : List inbound_path) (q : inbound_path)
    (f : inbound_path → inbound_path) (h : ∀ p ∈ l, p.key ≠ q.key) :
    update_path q.key f (l ++ [q]) = l ++ [f q] := by
  induction l with
  | nil => simp [update_path]
  | cons a l ih =>
    have ha : a.key ≠ q.key := h a (List.mem_cons_self _ _)
    have ih2 := ih (fun p hp => h p (List.mem_cons_of_mem _ hp))
    simp only [List.cons_append, update_path, if_neg ha]
    exact congrArg (List.cons a) ih2

/-- Closed form of `add_path` when `find` has a path. -/
theorem g_add_path_of_present (env : gatherer_env) (s : stream_gatherer_impl)
    (slot : stream_slot) (hdl original_stage : strong_actor_ptr) (prio : stream_priority)
    (available_credit : Int) (redeployable : Bool) (result_cb : response_promise)
    (h : (s.find slot hdl).isSome = true) :
    add_path env s slot hdl original_stage prio available_credit redeployable result_cb
      = (none, { s with outbox := s.outbox ++
          [(hdl, gatherer_msg.irregular_shutdown slot sec.cannot_add_upstream)] }) := by
  unfold add_path
  rw [if_pos h]
  rfl

/-- Closed form of `add_path` when `find` has no path. -/
theorem g_add_path_of_fresh (env : gatherer_env) (s : stream_gatherer_impl)
    (slot : stream_slot) (hdl original_stage : strong_actor_ptr) (prio : stream_priority)
    (available_credit : Int) (redeployable : Bool) (result_cb : response_promise)
    (h : s.find slot hdl = none) :
    add_path env s slot hdl original_stage prio available_credit redeployable result_cb
      = (some (slot, hdl),
         send { s with
            paths_ := s.paths_ ++
              [{ slot := slot, hdl := hdl, prio := prio, shutdown_reason := none }],
            assignment_vec_ := s.assignment_vec_ ++ [((slot, hdl), 0)],
            listeners_ := (if result_cb.pending = true then s.listeners_ ++ [result_cb]
                           else s.listeners_),
            aborter_calls := s.aborter_calls ++ [aborter_call.add hdl slot] }
          original_stage
          (gatherer_msg.ack_open slot hdl
            (env.initial_credit
              { s with
                paths_ := s.paths_ ++
                  [{ slot := slot, hdl := hdl, prio := prio, shutdown_reason := none }],
                assignment_vec_ := s.assignment_vec_ ++ [((slot, hdl), 0)],
                listeners_ := (if result_cb.pending = true then s.listeners_ ++ [result_cb]
                               else s.listeners_),
                aborter_calls := s.aborter_calls ++ [aborter_call.add hdl slot] }
              available_credit (slot, hdl))
            redeployable)) := by
  have hn : ¬ ((s.find slot hdl).isSome = true) := by rw [h]; simp
  have hk : ∀ p ∈ s.paths_,
      p.key ≠ (inbound_path.key ⟨slot, hdl, env.default_prio, none⟩) :=
    (g_find_eq_none_iff s slot hdl).1 h
  have hu2 : update_path (slot, hdl) (fun p => { p with prio := prio })
      (s.paths_ ++ [⟨slot, hdl, env.default_prio, none⟩])
      = s.paths_ ++ [⟨slot, hdl, prio, none⟩] :=
    update_path_append_new s.paths_ ⟨slot, hdl, env.default_prio, none⟩
      (fun p => { p with prio := prio }) hk
  unfold add_path
  rw [if_neg hn]
  by_cases hp : result_cb.pending = true
  · simp only [add_path_impl, emit_ack_open, hp, if_true, hu2]
  · have hb : result_cb.pending = false := by simpa using hp
    simp only [add_path_impl, emit_ack_open, hb, Bool.false_eq_true, if_false, hu2]

/-- C11: when `find(slot, hdl)` reports a path, `add_path` returns the null pointer, sends
exactly one message, the refusal `cannot_add_upstream` addressed to `hdl` (so no open
acknowledgment), and leaves the registry, the assignment vector and the listeners as they
were (the promise is not kept); no liveness watch call and no delivery is made. -/
theorem gatherer_add_path_duplicate (env : gatherer_env) (s : stream_gatherer_impl)
    (slot : stream_slot) (hdl original_stage : strong_actor_ptr) (prio : stream_priority)
    (available_credit : Int) (redeployable : Bool) (result_cb : response_promise)
    (h : (s.find slot hdl).isSome = true) :
    (add_path env s slot hdl original_stage prio available_credit redeployable result_cb).1 = none ∧
    (add_path env s slot hdl original_stage prio available_credit redeployable result_cb).2.outbox = s.outbox ++
      [(hdl, gatherer_msg.irregular_shutdown slot sec.cannot_add_upstream)] ∧
    (add_path env s slot hdl original_stage prio available_credit redeployable result_cb).2.paths_ = s.paths_ ∧
    (add_path env s slot hdl original_stage prio available_credit redeployable result_cb).2.assignment_vec_ = s.assignment_vec_ ∧
    (add_path env s slot hdl original_stage prio available_credit redeployable result_cb).2.listeners_ = s.listeners_ ∧
    (add_path env s slot hdl original_stage prio available_credit redeployable result_cb).2.aborter_calls = s.aborter_calls ∧
    (add_path env s slot hdl original_stage prio available_credit redeployable result_cb).2.delivered = s.delivered := by
  rw [g_add_path_of_present env s slot hdl original_stage prio available_credit redeployable
    result_cb h]
  exact ⟨rfl, rfl, rfl, rfl, rfl, rfl, rfl⟩

/-- Witness for C11: the path of slot 1 and peer 10 is added a second time, with a pending
promise. -/
theorem gatherer_add_path_duplicate_witness :
    ((add_path example_env init 1 10 99 2 70 false ⟨1, true⟩).2.find 1 10).isSome = true ∧
    (add_path example_env (add_path example_env init 1 10 99 2 70 false ⟨1, true⟩).2
      1 10 98 3 20 true ⟨2, true⟩).1 = none ∧
    (add_path example_env (add_path example_env init 1 10 99 2 70 false ⟨1, true⟩).2
      1 10 98 3 20 true ⟨2, true⟩).2.outbox
      = [(99, gatherer_msg.ack_open 1 10 50 false),
         (10, gatherer_msg.irregular_shutdown 1 sec.cannot_add_upstream)] ∧
    (add_path example_env (add_path example_env init 1 10 99 2 70 false ⟨1, true⟩).2
      1 10 98 3 20 true ⟨2, true⟩).2.listeners_ = [⟨1, true⟩] :=
  ⟨by decide,
   (gatherer_add_path_duplicate example_env
      (add_path example_env init 1 10 99 2 70 false ⟨1, true⟩).2
      1 10 98 3 20 true ⟨2, true⟩ (by decide)).1,
   by decide, by decide⟩

/-- C12: when `find(slot, hdl)` reports no path, `add_path` returns the pointer to a new
path for this slot and peer; the registry is the old one with that path, carrying the given
priority, appended; the assignment vector gets the one entry (that path, 0) at its end; the
promise is appended to the listeners when it is pending and the listeners are unchanged
otherwise; exactly one message is sent, the open acknowledgment to `original_stage` with
the credit that the policy returns for `available_credit` and with the redeployable flag;
nothing is delivered. -/
theorem gatherer_add_path_fresh (env : gatherer_env) (s : stream_gatherer_impl)
    (slot : stream_slot) (hdl original_stage : strong_actor_ptr) (prio : stream_priority)
    (available_credit : Int) (redeployable : Bool) (result_cb : response_promise)
    (h : s.find slot hdl = none) :
    (add_path env s slot hdl original_stage prio available_credit redeployable result_cb).1 = some (slot, hdl) ∧
    (add_path env s slot hdl original_stage prio available_credit redeployable result_cb).2.paths_ = s.paths_ ++ [⟨slot, hdl, prio, none⟩] ∧
    (add_path env s slot hdl original_stage prio available_credit redeployable result_cb).2.find slot hdl = some ⟨slot, hdl, prio, none⟩ ∧
    (add_path env s slot hdl original_stage prio available_credit redeployable result_cb).2.assignment_vec_ = s.assignment_vec_ ++ [((slot, hdl), 0)] ∧
    (result_cb.pending = true → (add_path env s slot hdl original_stage prio available_credit redeployable result_cb).2.listeners_ = s.listeners_ ++ [result_cb]) ∧
    (result_cb.pending = false → (add_path env s slot hdl original_stage prio available_credit redeployable result_cb).2.listeners_ = s.listeners_) ∧
    (add_path env s slot hdl original_stage prio available_credit redeployable result_cb).2.outbox = s.outbox ++
      [(original_stage, gatherer_msg.ack_open slot hdl
        (env.initial_credit { (add_path env s slot hdl original_stage prio available_credit redeployable result_cb).2 with outbox := s.outbox } available_credit (slot, hdl))
        redeployable)] ∧
    (add_path env s slot hdl original_stage prio available_credit redeployable result_cb).2.delivered = s.delivered := by
  rw [g_add_path_of_fresh env s slot hdl original_stage prio available_credit redeployable
    result_cb h]
  refine ⟨rfl, rfl, ?_, rfl, ?_, ?_, rfl, rfl⟩
  · have hn : s.paths_.find? (fun p => p.slot == slot && p.hdl == hdl) = none := h
    simp [find, send, List.find?_append, hn]
  · intro hp
    simp [send, hp]
  · intro hp
    simp [send, hp]

/-- Witness for C12: a second path is added to a gatherer that has one, with a promise that
is not pending. -/
theorem gatherer_add_path_fresh_witness :
    (add_path example_env init 1 10 99 2 70 false ⟨1, true⟩).2.find 1 11 = none ∧
    (add_path example_env (add_path example_env init 1 10 99 2 70 false ⟨1, true⟩).2
      1 11 98 3 20 true ⟨2, false⟩).1 = some (1, 11) ∧
    (add_path example_env (add_path example_env init 1 10 99 2 70 false ⟨1, true⟩).2
      1 11 98 3 20 true ⟨2, false⟩).2.outbox
      = [(99, gatherer_msg.ack_open 1 10 50 false), (98, gatherer_msg.ack_open 1 11 20 true)] ∧
    (add_path example_env (add_path example_env init 1 10 99 2 70 false ⟨1, true⟩).2
      1 11 98 3 20 true ⟨2, false⟩).2.listeners_ = [⟨1, true⟩] :=
  ⟨by decide,
   (gatherer_add_path_fresh example_env
      (add_path example_env init 1 10 99 2 70 false ⟨1, true⟩).2
      1 11 98 3 20 true ⟨2, false⟩ (by decide)).1,
   by decide, by decide⟩

/-! ## The gatherer: close, abort and emit_credits -/

theorem foldl_aborter_del (l : List inbound_path) (s : stream_gatherer_impl) :
    l.foldl (fun acc path => aborter_del acc path.hdl path.slot) s
      = { s with aborter_calls := s.aborter_calls ++
            l.map (fun p => aborter_call.del p.hdl p.slot) } := by
  induction l generalizing s with
  | nil => simp
  | cons a l ih =>
    rw [List.foldl_cons, ih]
    simp [aborter_del]

theorem foldl_deliver (l : List response_promise) (x : delivery) (s : stream_gatherer_impl) :
    l.foldl (fun acc listener => deliver acc listener x) s
      = { s with delivered := s.delivered ++ l.map (fun listener => (listener, x)) } := by
  induction l generalizing s with
  | nil => simp
  | cons a l ih =>
    rw [List.foldl_cons, ih]
    simp [deliver]

theorem foldl_abort_loop (reason : error) (l : List inbound_path) (s : stream_gatherer_impl) :
    ∃ ps : List inbound_path,
      l.foldl
        (fun acc path =>
          { aborter_del acc path.hdl path.slot with
            paths_ := update_path path.key (fun p => { p with shutdown_reason := some reason })
              (aborter_del acc path.hdl path.slot).paths_ })
        s
      = { s with
          paths_ := ps,
          aborter_calls := s.aborter_calls ++ l.map (fun p => aborter_call.del p.hdl p.slot) } := by
  induction l generalizing s with
  | nil => exact ⟨s.paths_, by simp⟩
  | cons a l ih =>
    rw [List.foldl_cons]
    obtain ⟨ps, hps⟩ := ih
      { aborter_del s a.hdl a.slot with
        paths_ := update_path a.key (fun p => { p with shutdown_reason := some reason })
          (aborter_del s a.hdl a.slot).paths_ }
    refine ⟨ps, ?_⟩
    rw [hps]
    simp [aborter_del]

theorem g_close_eq (s : stream_gatherer_impl) (result : message) :
    close s result = { s with
      paths_ := [],
      assignment_vec_ := [],
      listeners_ := [],
      aborter_calls := s.aborter_calls ++ s.paths_.map (fun p => aborter_call.del p.hdl p.slot),
      delivered := s.delivered ++
        s.listeners_.map (fun listener => (listener, delivery.value result)) } := by
  unfold close
  simp only [foldl_aborter_del, foldl_deliver]

theorem g_abort_eq (s : stream_gatherer_impl) (reason : error) :
    abort s reason = { s with
      paths_ := [],
      assignment_vec_ := [],
      listeners_ := [],
      aborter_calls := s.aborter_calls ++ s.paths_.map (fun p => aborter_call.del p.hdl p.slot),
      delivered := s.delivered ++
        s.listeners_.map (fun listener => (listener, delivery.failure reason)) } := by
  obtain ⟨ps, hps⟩ := foldl_abort_loop reason s.paths_ s
  unfold abort
  simp only [hps, foldl_deliver]

theorem g_emit_credits_eq (s : stream_gatherer_impl) :
    emit_credits s = { s with
      outbox := s.outbox ++ (s.assignment_vec_.filter (fun kvp => decide (kvp.2 > 0))).map
        (fun kvp => (kvp.1.2, gatherer_msg.ack_batch kvp.1.1 kvp.2)) } := by
  have h : ∀ (l : List (path_ref × Int)) (t : stream_gatherer_impl),
      l.foldl (fun acc kvp => if kvp.2 > 0 then emit_ack_batch acc kvp.1 kvp.2 else acc) t
        = { t with
            outbox := t.outbox ++ (l.filter (fun kvp => decide (kvp.2 > 0))).map
              (fun kvp => (kvp.1.2, gatherer_msg.ack_batch kvp.1.1 kvp.2)) } := by
    intro l
    induction l with
    | nil => intro t; simp
    | cons a l ih =>
      intro t
      rw [List.foldl_cons, ih]
      by_cases ha : a.2 > 0
      · simp [ha, emit_ack_batch, send, List.filter_cons]
      · simp [ha, List.filter_cons]
  unfold emit_credits
  exact h s.assignment_vec_ s

/-- C14: `close` calls `stream_aborter::del` once for every path of the registry, in
registry order, leaves the registry, the assignment vector and the listeners empty, and
makes exactly one delivery per listener, of `result`, in listener order (as many deliveries
as there were listeners, none to anything else); it sends no message. -/
theorem gatherer_close_fulfills_listeners (s : stream_gatherer_impl) (result : message) :
    (close s result).aborter_calls
      = s.aborter_calls ++ s.paths_.map (fun p => aborter_call.del p.hdl p.slot) ∧
    (close s result).paths_ = [] ∧
    (close s result).assignment_vec_ = [] ∧
    (close s result).listeners_ = [] ∧
    (close s result).delivered
      = s.delivered ++ s.listeners_.map (fun listener => (listener, delivery.value result)) ∧
    ((close s result).delivered.drop s.delivered.length).length = s.listeners_.length ∧
    (close s result).outbox = s.outbox := by
  rw [g_close_eq]
  refine ⟨rfl, rfl, rfl, rfl, rfl, ?_, rfl⟩
  simp

/-- C15: `abort` calls `stream_aborter::del` once for every path of the registry, in
registry order, leaves the registry, the assignment vector and the listeners empty, and
makes exactly one delivery per listener, of `reason` as a failure, in listener order (as
many deliveries as there were listeners); none of the new deliveries is a result message;
it sends no message. -/
theorem gatherer_abort_fails_listeners (s : stream_gatherer_impl) (reason : error) :
    (abort s reason).aborter_calls
      = s.aborter_calls ++ s.paths_.map (fun p => aborter_call.del p.hdl p.slot) ∧
    (abort s reason).paths_ = [] ∧
    (abort s reason).assignment_vec_ = [] ∧
    (abort s reason).listeners_ = [] ∧
    (abort s reason).delivered
      = s.delivered ++ s.listeners_.map (fun listener => (listener, delivery.failure reason)) ∧
    ((abort s reason).delivered.drop s.delivered.length).length = s.listeners_.length ∧
    (∀ d ∈ (abort s reason).delivered.drop s.delivered.length,
      ∀ m : message, d.2 ≠ delivery.value m) ∧
    (abort s reason).outbox = s.outbox := by
  rw [g_abort_eq]
  refine ⟨rfl, rfl, rfl, rfl, rfl, ?_, ?_, rfl⟩
  · simp
  · intro d hd m
    simp only [List.drop_left] at hd
    obtain ⟨l, _, rfl⟩ := List.mem_map.1 hd
    simp

/-- C16: `emit_credits` sends exactly one credit acknowledgment for every entry of the
assignment vector whose amount is positive, in vector order, addressed to the peer of the
path of the entry and granting that amount; an entry whose amount is zero or negative adds
no message; the assignment vector with its amounts, the registry, the listeners and the
other logs are unchanged, and a second call sends the same acknowledgments again. -/
theorem gatherer_emit_credits (s : stream_gatherer_impl) :
    (emit_credits s).outbox
      = s.outbox ++ (s.assignment_vec_.filter (fun kvp => decide (kvp.2 > 0))).map
          (fun kvp => (kvp.1.2, gatherer_msg.ack_batch kvp.1.1 kvp.2)) ∧
    (∀ e ∈ (emit_credits s).outbox.drop s.outbox.length,
      ∃ kvp ∈ s.assignment_vec_, kvp.2 > 0 ∧
        e = (kvp.1.2, gatherer_msg.ack_batch kvp.1.1 kvp.2)) ∧
    (emit_credits s).assignment_vec_ = s.assignment_vec_ ∧
    (emit_credits s).paths_ = s.paths_ ∧
    (emit_credits s).listeners_ = s.listeners_ ∧
    (emit_credits s).aborter_calls = s.aborter_calls ∧
    (emit_credits s).delivered = s.delivered ∧
    (emit_credits (emit_credits s)).outbox
      = (emit_credits s).outbox ++
        (s.assignment_vec_.filter (fun kvp => decide (kvp.2 > 0))).map
          (fun kvp => (kvp.1.2, gatherer_msg.ack_batch kvp.1.1 kvp.2)) := by
  have h2 := g_emit_credits_eq (emit_credits s)
  rw [g_emit_credits_eq s] at h2 ⊢
  refine ⟨rfl, ?_, rfl, rfl, rfl, rfl, rfl, ?_⟩
  · intro e he
    simp only [List.drop_left] at he
    obtain ⟨kvp, hk, rfl⟩ := List.mem_map.1 he
    obtain ⟨hk1, hk2⟩ := List.mem_filter.1 hk
    exact ⟨kvp, hk1, by simpa using hk2, rfl⟩
  · rw [h2]

/-! ## The gatherer: remove_path -/

theorem findIdx_some_split {α : Type} (p : α → Bool) (l : List α) (i : Nat)
    (h : l.findIdx? p = some i) :
    ∃ a x b, l = a ++ x :: b ∧ a.length = i ∧ p x = true ∧ ∀ y ∈ a, p y = false := by
  induction l generalizing i with
  | nil => simp at h
  | cons c l ih =>
    rw [List.findIdx?_cons] at h
    by_cases hc : p c = true
    · rw [if_pos hc] at h
      have hi : i = 0 := by simpa using h.symm
      exact ⟨[], c, l, rfl, by simp [hi], hc, by simp⟩
    · rw [if_neg hc, List.findIdx?_succ] at h
      cases hj : l.findIdx? p 0 with
      | none => rw [hj] at h; simp at h
      | some j =>
        rw [hj] at h
        have hi : i = j + 1 := by simpa using h.symm
        obtain ⟨a, x, b, hl, hlen, hx, ha⟩ := ih j hj
        refine ⟨c :: a, x, b, by rw [hl]; rfl, by simp [hlen, hi], hx, ?_⟩
        intro y hy
        rcases List.mem_cons.1 hy with rfl | hm
        · simpa using hc
        · exact ha y hm

theorem findIdx_of_split_g {α : Type} (p : α → Bool) (a b : List α) (x : α)
    (hx : p x = true) (ha : ∀ y ∈ a, p y = false) :
    (a ++ x :: b).findIdx? p = some a.length := by
  induction a with
  | nil => simp [List.findIdx?_cons, hx]
  | cons c a ih =>
    have hc : p c = false := ha c (List.mem_cons_self _ _)
    have ih2 := ih (fun y hy => ha y (List.mem_cons_of_mem _ hy))
    simp [List.findIdx?_cons, hc, List.findIdx?_succ, ih2]

theorem eraseIdx_split {α : Type} (a b : List α) (x : α) :
    (a ++ x :: b).eraseIdx a.length = a ++ b := by
  induction a with
  | nil => rfl
  | cons c a ih => simp [List.eraseIdx_cons_succ, ih]

theorem getElem_concat_last_g {α : Type} (c : List α) (y : α) :
    (c ++ [y])[(c ++ [y]).length - 1]? = some y := by
  simp

theorem swap_with_last_split (a b : List inbound_path) (x : inbound_path) :
    (swap_with_last (a ++ x :: b) a.length).dropLast
      = a ++ (b.getLast?.toList ++ b.dropLast) := by
  rcases List.eq_nil_or_concat b with hb | ⟨c, y, hb⟩
  · subst hb
    have h1 : (a ++ [x])[a.length]? = some x := by simp
    have h2 : (a ++ [x])[(a ++ [x]).length - 1]? = some x := by simp
    unfold swap_with_last
    rw [h1, h2]
    simp
  · subst hb
    have hl : a ++ x :: c.concat y = (a ++ x :: c) ++ [y] := by simp
    have h1 : ((a ++ x :: c) ++ [y])[a.length]? = some x := by
      rw [List.append_assoc, List.getElem?_append_right (Nat.le_refl _)]
      simp
    have h2 := getElem_concat_last_g (a ++ x :: c) y
    have h3 : ((a ++ x :: c) ++ [y]).set a.length y = (a ++ y :: c) ++ [y] := by
      simp
    have h4 : ((a ++ x :: c) ++ [y]).length - 1 = (a ++ y :: c).length := by
      simp
    have h5 : ((a ++ y :: c) ++ [y]).set (a ++ y :: c).length x = (a ++ y :: c) ++ [x] := by
      rw [List.set_append_right _ _ (Nat.le_refl _)]
      simp
    rw [hl]
    unfold swap_with_last
    rw [h1, h2]
    simp only []
    rw [h3, h4, h5, List.dropLast_concat, List.concat_eq_append, List.getLast?_concat,
      List.dropLast_concat]
    simp

theorem g_swap_pop_perm (a b : List inbound_path) (x : inbound_path) :
    (a ++ (b.getLast?.toList ++ b.dropLast) ++ [x]).Perm (a ++ x :: b) := by
  have hb : (b.getLast?.toList ++ b.dropLast).Perm b := by
    rcases List.eq_nil_or_concat b with hb | ⟨c, y, hb⟩
    · subst hb
      simp
    · subst hb
      rw [List.concat_eq_append, List.getLast?_concat, List.dropLast_concat]
      simpa using (List.perm_append_singleton y c).symm
  rw [List.append_assoc]
  refine List.Perm.append_left a ?_
  refine (List.perm_append_singleton x _).trans ?_
  exact List.Perm.cons x hb

/-- Closed form of the base class `remove_path` with the registry split at the first path
of the slot and handle. -/
theorem super_remove_path_of_split (s : stream_gatherer_impl) (a b : List inbound_path)
    (x : inbound_path) (slot : stream_slot) (hdl : strong_actor_ptr) (reason : error)
    (silent : Bool) (hs : s.paths_ = a ++ x :: b) (hx : x.key = (slot, hdl))
    (ha : ∀ y ∈ a, y.key ≠ (slot, hdl)) :
    (super_remove_path s slot hdl reason silent).1 = true ∧
    (super_remove_path s slot hdl reason silent).2.paths_
      = a ++ (b.getLast?.toList ++ b.dropLast) ∧
    (super_remove_path s slot hdl reason silent).2.assignment_vec_ = s.assignment_vec_ ∧
    (super_remove_path s slot hdl reason silent).2.listeners_ = s.listeners_ ∧
    (super_remove_path s slot hdl reason silent).2.delivered = s.delivered := by
  have hp : (fun p : inbound_path => p.slot == slot && p.hdl == hdl) x = true := by
    have h1 : x.slot = slot := congrArg Prod.fst hx
    have h2 : x.hdl = hdl := congrArg Prod.snd hx
    simp [h1, h2]
  have hq : ∀ y ∈ a, (fun p : inbound_path => p.slot == slot && p.hdl == hdl) y = false := by
    intro y hy
    have hne := ha y hy
    by_cases h1 : y.slot = slot
    · have h2 : y.hdl ≠ hdl := fun h2 => hne (Prod.ext h1 h2)
      simp [h1, h2]
    · simp [h1]
  have hi := findIdx_of_split_g _ a b x hp hq
  unfold super_remove_path
  rw [hs, hi]
  simp only []
  rw [swap_with_last_split]
  cases silent <;> simp [aborter_del, send]

theorem super_remove_path_not_found (s : stream_gatherer_impl) (slot : stream_slot)
    (hdl : strong_actor_ptr) (reason : error) (silent : Bool) (h : s.find slot hdl = none) :
    super_remove_path s slot hdl reason silent = (false, s) := by
  have hn : s.paths_.findIdx? (fun p => p.slot == slot && p.hdl == hdl) = none := by
    rw [List.findIdx?_eq_none_iff]
    have h2 : s.paths_.find? (fun p => p.slot == slot && p.hdl == hdl) = none := h
    rw [List.find?_eq_none] at h2
    intro y hy
    simpa using h2 y hy
  unfold super_remove_path
  rw [hn]

theorem g_find_split (s : stream_gatherer_impl) (slot : stream_slot) (hdl : strong_actor_ptr)
    (h : (s.find slot hdl).isSome = true) :
    ∃ a x b, s.paths_ = a ++ x :: b ∧ x.key = (slot, hdl) ∧ ∀ y ∈ a, y.key ≠ (slot, hdl) := by
  obtain ⟨x, hx⟩ := Option.isSome_iff_exists.1 h
  have hx2 : s.paths_.find? (fun p => p.slot == slot && p.hdl == hdl) = some x := hx
  obtain ⟨hp, a, b, hab, hall⟩ := List.find?_eq_some.1 hx2
  simp only [Bool.and_eq_true, beq_iff_eq] at hp
  refine ⟨a, x, b, hab, Prod.ext hp.1 hp.2, ?_⟩
  intro y hy hk
  have h3 := hall y hy
  have h1 : y.slot = slot := congrArg Prod.fst hk
  have h2 : y.hdl = hdl := congrArg Prod.snd hk
  simp [h1, h2] at h3

theorem g_remove_path_no_entry (s : stream_gatherer_impl) (slot : stream_slot)
    (x : strong_actor_ptr) (reason : error) (silent : Bool)
    (h : ∀ y ∈ s.assignment_vec_, y.1 ≠ (slot, x)) :
    remove_path s slot x reason silent = (false, s) := by
  have hn : s.assignment_vec_.findIdx? (fun y => y.1.1 == slot && y.1.2 == x) = none := by
    rw [List.findIdx?_eq_none_iff]
    intro y hy
    have hne := h y hy
    by_cases h1 : y.1.1 = slot
    · have h2 : y.1.2 ≠ x := fun h2 => hne (Prod.ext h1 h2)
      simp [h1, h2]
    · simp [h1]
  unfold remove_path
  rw [hn]

theorem g_remove_path_entry (s : stream_gatherer_impl) (slot : stream_slot)
    (x : strong_actor_ptr) (reason : error) (silent : Bool)
    (h : ∃ y ∈ s.assignment_vec_, y.1 = (slot, x)) :
    ∃ a e b, s.assignment_vec_ = a ++ e :: b ∧ e.1 = (slot, x) ∧
      (∀ y ∈ a, y.1 ≠ (slot, x)) ∧
      remove_path s slot x reason silent
        = super_remove_path { s with assignment_vec_ := a ++ b } slot x reason silent := by
  cases hi : s.assignment_vec_.findIdx? (fun y => y.1.1 == slot && y.1.2 == x) with
  | none =>
    rw [List.findIdx?_eq_none_iff] at hi
    obtain ⟨y, hy, hk⟩ := h
    have h3 := hi y hy
    have h1 : y.1.1 = slot := congrArg Prod.fst hk
    have h2 : y.1.2 = x := congrArg Prod.snd hk
    simp [h1, h2] at h3
  | some i =>
    obtain ⟨a, e, b, hl, hlen, he, ha⟩ := findIdx_some_split _ _ i hi
    simp only [Bool.and_eq_true, beq_iff_eq] at he
    refine ⟨a, e, b, hl, Prod.ext he.1 he.2, ?_, ?_⟩
    · intro y hy hk
      have h3 := ha y hy
      have h1 : y.1.1 = slot := congrArg Prod.fst hk
      have h2 : y.1.2 = x := congrArg Prod.snd hk
      simp [h1, h2] at h3
    · unfold remove_path
      rw [hi]
      simp only []
      rw [hl, ← hlen, eraseIdx_split]

/-- What `remove_path` does on a state in which the registry has unique paths and the
assignment vector points to the paths of the registry. -/
theorem g_remove_path_spec (s : stream_gatherer_impl) (hu : unique_paths s)
    (hp : same_paths s) (slot : stream_slot) (x : strong_actor_ptr) (reason : error)
    (silent : Bool) :
    (s.find slot x = none → remove_path s slot x reason silent = (false, s)) ∧
    ((s.find slot x).isSome = true →
      (remove_path s slot x reason silent).1 = true ∧
      (∃ a e b, s.assignment_vec_ = a ++ e :: b ∧ e.1 = (slot, x) ∧
        (remove_path s slot x reason silent).2.assignment_vec_ = a ++ b ∧
        ∀ y ∈ a ++ b, y.1 ≠ (slot, x)) ∧
      (remove_path s slot x reason silent).2.find slot x = none ∧
      (remove_path s slot x reason silent).2.listeners_ = s.listeners_ ∧
      (remove_path s slot x reason silent).2.delivered = s.delivered ∧
      unique_paths (remove_path s slot x reason silent).2 ∧
      same_paths (remove_path s slot x reason silent).2) := by
  unfold unique_paths same_paths at *
  constructor
  · intro hf
    apply g_remove_path_no_entry
    intro y hy hk
    have hm : (slot, x) ∈ s.paths_.map inbound_path.key :=
      hp.mem_iff.1 (hk ▸ List.mem_map_of_mem Prod.fst hy)
    obtain ⟨q, hq, hqk⟩ := List.mem_map.1 hm
    exact (g_find_eq_none_iff s slot x).1 hf q hq hqk
  · intro hf
    obtain ⟨c, q, d, hs, hq, _⟩ := g_find_split s slot x hf
    have hin : ∃ y ∈ s.assignment_vec_, y.1 = (slot, x) := by
      have hm : (slot, x) ∈ s.assignment_vec_.map Prod.fst := by
        apply hp.mem_iff.2
        rw [hs]
        exact List.mem_map.2 ⟨q, by simp, hq⟩
      obtain ⟨y, hy, hyk⟩ := List.mem_map.1 hm
      exact ⟨y, hy, hyk⟩
    obtain ⟨a, e, b, hav, he, _, hrm⟩ := g_remove_path_entry s slot x reason silent hin
    obtain ⟨c2, q2, d2, hs2, hq2, hc2⟩ := g_find_split s slot x hf
    have hsp := super_remove_path_of_split { s with assignment_vec_ := a ++ b } c2 d2 q2
      slot x reason silent hs2 hq2 hc2
    rw [← hrm] at hsp
    obtain ⟨r1, r2, r3, r4, r5⟩ := hsp
    have hperm := (g_swap_pop_perm c2 d2 q2).map inbound_path.key
    rw [← hs2] at hperm
    rw [List.map_append, List.map_cons, List.map_nil, hq2] at hperm
    have hnd : (List.map inbound_path.key (c2 ++ (d2.getLast?.toList ++ d2.dropLast))
        ++ [(slot, x)]).Nodup := hperm.nodup_iff.2 hu
    have hnd2 := List.nodup_append.1 hnd
    have hnot : (slot, x) ∉ List.map inbound_path.key
        (c2 ++ (d2.getLast?.toList ++ d2.dropLast)) :=
      fun hm => hnd2.2.2 hm (List.mem_singleton_self _)
    have hsame : (List.map Prod.fst (a ++ b)).Perm
        (List.map inbound_path.key (c2 ++ (d2.getLast?.toList ++ d2.dropLast))) := by
      have h1 : (List.map Prod.fst (a ++ e :: b)).Perm ((slot, x) :: List.map Prod.fst (a ++ b)) := by
        rw [List.map_append, List.map_cons, he, List.map_append]
        exact List.perm_middle
      have h2 : ((slot, x) :: List.map Prod.fst (a ++ b)).Perm
          ((slot, x) :: List.map inbound_path.key
            (c2 ++ (d2.getLast?.toList ++ d2.dropLast))) := by
        refine h1.symm.trans ?_
        rw [← hav]
        refine hp.trans (hperm.symm.trans ?_)
        exact List.perm_append_singleton _ _
      exact h2.cons_inv
    refine ⟨r1, ⟨a, e, b, hav, he, r3, ?_⟩, ?_, r4, r5, ?_, ?_⟩
    · intro y hy hk
      exact hnot (hsame.mem_iff.1 (hk ▸ List.mem_map_of_mem Prod.fst hy))
    · rw [g_find_eq_none_iff, r2]
      intro p hpm hk
      exact hnot (hk ▸ List.mem_map_of_mem inbound_path.key hpm)
    · rw [r2]
      exact hnd2.1
    · rw [r2, r3]
      exact hsame

/-! ## The gatherer: what holds along every run -/

theorem g_inv_step (env : gatherer_env) (s : stream_gatherer_impl) (o : op)
    (h : unique_paths s ∧ same_paths s) :
    unique_paths (step env s o) ∧ same_paths (step env s o) := by
  obtain ⟨hu, hp⟩ := h
  cases o with
  | add_path slot hdl original_stage prio available_credit redeployable result_cb =>
    show unique_paths (add_path env s slot hdl original_stage prio available_credit
        redeployable result_cb).2 ∧
      same_paths (add_path env s slot hdl original_stage prio available_credit
        redeployable result_cb).2
    cases hf : s.find slot hdl with
    | none =>
      rw [g_add_path_of_fresh env s slot hdl original_stage prio available_credit redeployable
        result_cb hf]
      have hk := (g_find_eq_none_iff s slot hdl).1 hf
      unfold unique_paths same_paths at *
      simp only [send, List.map_append, List.map_cons, List.map_nil, inbound_path.key]
      constructor
      · rw [List.nodup_append]
        refine ⟨hu, List.nodup_singleton _, ?_⟩
        intro a ha hb
        simp only [List.mem_singleton] at hb
        obtain ⟨q, hq, hqa⟩ := List.mem_map.1 ha
        exact hk q hq (hqa.trans hb)
      · exact List.Perm.append hp (List.Perm.refl _)
    | some x0 =>
      rw [g_add_path_of_present env s slot hdl original_stage prio available_credit
        redeployable result_cb (by rw [hf]; rfl)]
      exact ⟨hu, hp⟩
  | remove_path slot x reason silent =>
    show unique_paths (remove_path s slot x reason silent).2 ∧
      same_paths (remove_path s slot x reason silent).2
    obtain ⟨h1, h2⟩ := g_remove_path_spec s hu hp slot x reason silent
    cases hf : s.find slot x with
    | none =>
      rw [h1 hf]
      exact ⟨hu, hp⟩
    | some x0 =>
      obtain ⟨_, _, _, _, _, r6, r7⟩ := h2 (by rw [hf]; rfl)
      exact ⟨r6, r7⟩
  | close result =>
    show unique_paths (close s result) ∧ same_paths (close s result)
    rw [g_close_eq]
    exact ⟨List.nodup_nil, List.Perm.refl _⟩
  | abort reason =>
    show unique_paths (abort s reason) ∧ same_paths (abort s reason)
    rw [g_abort_eq]
    exact ⟨List.nodup_nil, List.Perm.refl _⟩
  | emit_credits =>
    show unique_paths (emit_credits s) ∧ same_paths (emit_credits s)
    rw [g_emit_credits_eq]
    exact ⟨hu, hp⟩

theorem g_inv_run (env : gatherer_env) (ops : List op) (s : stream_gatherer_impl)
    (h : unique_paths s ∧ same_paths s) :
    unique_paths (run env s ops) ∧ same_paths (run env s ops) := by
  induction ops generalizing s with
  | nil => exact h
  | cons o ops ih =>
    unfold run
    rw [List.foldl_cons]
    exact ih _ (g_inv_step env s o h)

theorem g_inv_of_reachable (env : gatherer_env) (s : stream_gatherer_impl)
    (h : reachable env s) : unique_paths s ∧ same_paths s := by
  obtain ⟨ops, rfl⟩ := h
  exact g_inv_run env ops init ⟨List.nodup_nil, List.Perm.refl _⟩

/-- C13: in every state reached from the fresh gatherer, `remove_path` for a slot and peer
without a path returns false and gives back the state as it was; for a slot and peer with a
path it returns true, the assignment vector loses exactly the entry of that path, the
entries before and after it staying as they were and in their order, no entry for the slot
and peer remains, `find` no longer reports the path, and the listeners are unchanged. -/
theorem gatherer_remove_path (env : gatherer_env) (s : stream_gatherer_impl)
    (hr : reachable env s) (slot : stream_slot) (x : strong_actor_ptr) (reason : error)
    (silent : Bool) :
    (s.find slot x = none → remove_path s slot x reason silent = (false, s)) ∧
    ((s.find slot x).isSome = true →
      (remove_path s slot x reason silent).1 = true ∧
      (∃ a e b, s.assignment_vec_ = a ++ e :: b ∧ e.1 = (slot, x) ∧
        (remove_path s slot x reason silent).2.assignment_vec_ = a ++ b ∧
        ∀ y ∈ a ++ b, y.1 ≠ (slot, x)) ∧
      (remove_path s slot x reason silent).2.find slot x = none ∧
      (remove_path s slot x reason silent).2.listeners_ = s.listeners_) := by
  obtain ⟨hu, hp⟩ := g_inv_of_reachable env s hr
  obtain ⟨h1, h2⟩ := g_remove_path_spec s hu hp slot x reason silent
  refine ⟨h1, ?_⟩
  intro hf
  obtain ⟨r1, r2, r3, r4, _⟩ := h2 hf
  exact ⟨r1, r2, r3, r4⟩

/-- Witness for C13: three paths are added; removing the absent path (2, 10) changes
nothing, removing the path (1, 10) returns true. -/
theorem gatherer_remove_path_witness :
    reachable example_env (run example_env init
      [op.add_path 1 10 99 2 70 false ⟨1, true⟩, op.add_path 1 11 99 2 30 true ⟨2, true⟩,
       op.add_path 1 12 99 2 70 false ⟨3, false⟩]) ∧
    (run example_env init
      [op.add_path 1 10 99 2 70 false ⟨1, true⟩, op.add_path 1 11 99 2 30 true ⟨2, true⟩,
       op.add_path 1 12 99 2 70 false ⟨3, false⟩]).find 2 10 = none ∧
    remove_path (run example_env init
      [op.add_path 1 10 99 2 70 false ⟨1, true⟩, op.add_path 1 11 99 2 30 true ⟨2, true⟩,
       op.add_path 1 12 99 2 70 false ⟨3, false⟩]) 2 10 5 false
      = (false, run example_env init
      [op.add_path 1 10 99 2 70 false ⟨1, true⟩, op.add_path 1 11 99 2 30 true ⟨2, true⟩,
       op.add_path 1 12 99 2 70 false ⟨3, false⟩]) ∧
    ((run example_env init
      [op.add_path 1 10 99 2 70 false ⟨1, true⟩, op.add_path 1 11 99 2 30 true ⟨2, true⟩,
       op.add_path 1 12 99 2 70 false ⟨3, false⟩]).find 1 10).isSome = true ∧
    (remove_path (run example_env init
      [op.add_path 1 10 99 2 70 false ⟨1, true⟩, op.add_path 1 11 99 2 30 true ⟨2, true⟩,
       op.add_path 1 12 99 2 70 false ⟨3, false⟩]) 1 10 5 false).1 = true ∧
    (remove_path (run example_env init
      [op.add_path 1 10 99 2 70 false ⟨1, true⟩, op.add_path 1 11 99 2 30 true ⟨2, true⟩,
       op.add_path 1 12 99 2 70 false ⟨3, false⟩]) 1 10 5 false).2.assignment_vec_
      = [((1, 11), 0), ((1, 12), 0)] :=
  ⟨⟨_, rfl⟩, by decide,
   (gatherer_remove_path example_env _ ⟨_, rfl⟩ 2 10 5 false).1 (by decide),
   by decide,
   ((gatherer_remove_path example_env _ ⟨_, rfl⟩ 1 10 5 false).2 (by decide)).1,
   by decide⟩

/-- C19, as the claim states it, fails: after adding the paths (1, 10), (1, 11), (1, 12)
and removing (1, 10), the registry holds the paths (1, 12), (1, 11) in this order while the
assignment vector points to (1, 11), (1, 12) in this order; entry 0 does not point to
path 0. -/
theorem assignment_vec_not_index_aligned :
    reachable example_env (run example_env init
      [op.add_path 1 10 99 2 70 false ⟨1, true⟩, op.add_path 1 11 99 2 30 true ⟨2, true⟩,
       op.add_path 1 12 99 2 70 false ⟨3, false⟩, op.remove_path 1 10 5 false]) ∧
    (run example_env init
      [op.add_path 1 10 99 2 70 false ⟨1, true⟩, op.add_path 1 11 99 2 30 true ⟨2, true⟩,
       op.add_path 1 12 99 2 70 false ⟨3, false⟩, op.remove_path 1 10 5 false]).paths_.map
        inbound_path.key = [(1, 12), (1, 11)] ∧
    (run example_env init
      [op.add_path 1 10 99 2 70 false ⟨1, true⟩, op.add_path 1 11 99 2 30 true ⟨2, true⟩,
       op.add_path 1 12 99 2 70 false ⟨3, false⟩, op.remove_path 1 10 5 false]).assignment_vec_.map
        Prod.fst = [(1, 11), (1, 12)] ∧
    ¬ ((run example_env init
      [op.add_path 1 10 99 2 70 false ⟨1, true⟩, op.add_path 1 11 99 2 30 true ⟨2, true⟩,
       op.add_path 1 12 99 2 70 false ⟨3, false⟩, op.remove_path 1 10 5 false]).assignment_vec_.map
        Prod.fst
      = (run example_env init
      [op.add_path 1 10 99 2 70 false ⟨1, true⟩, op.add_path 1 11 99 2 30 true ⟨2, true⟩,
       op.add_path 1 12 99 2 70 false ⟨3, false⟩, op.remove_path 1 10 5 false]).paths_.map
        inbound_path.key) :=
  ⟨⟨_, rfl⟩, by decide, by decide, by decide⟩

/-- C19, amended: in every state reached from the fresh gatherer the assignment vector has
the same length as the path registry and its entries point to exactly the paths of the
registry, each path once, in some order (not necessarily at the same index); no two paths
of the registry have the same slot and peer. -/
theorem assignment_vec_same_paths (env : gatherer_env) (s : stream_gatherer_impl)
    (hr : reachable env s) :
    s.assignment_vec_.length = s.paths_.length ∧
    (s.assignment_vec_.map Prod.fst).Perm (s.paths_.map inbound_path.key) ∧
    (s.assignment_vec_.map Prod.fst).Nodup ∧
    (s.paths_.map inbound_path.key).Nodup := by
  obtain ⟨hu, hp⟩ := g_inv_of_reachable env s hr
  unfold unique_paths at hu
  unfold same_paths at hp
  refine ⟨?_, hp, hp.nodup_iff.2 hu, hu⟩
  simpa using hp.length_eq

/-- Witness for the amended C19: the state of the counterexample. -/
theorem assignment_vec_same_paths_witness :
    reachable example_env (run example_env init
      [op.add_path 1 10 99 2 70 false ⟨1, true⟩, op.add_path 1 11 99 2 30 true ⟨2, true⟩,
       op.add_path 1 12 99 2 70 false ⟨3, false⟩, op.remove_path 1 10 5 false]) ∧
    (run example_env init
      [op.add_path 1 10 99 2 70 false ⟨1, true⟩, op.add_path 1 11 99 2 30 true ⟨2, true⟩,
       op.add_path 1 12 99 2 70 false ⟨3, false⟩, op.remove_path 1 10 5 false]).assignment_vec_.length
      = (run example_env init
      [op.add_path 1 10 99 2 70 false ⟨1, true⟩, op.add_path 1 11 99 2 30 true ⟨2, true⟩,
       op.add_path 1 12 99 2 70 false ⟨3, false⟩, op.remove_path 1 10 5 false]).paths_.length :=
  ⟨⟨_, rfl⟩, (assignment_vec_same_paths example_env _ ⟨_, rfl⟩).1⟩

/-! ## The gatherer: every retained promise is fulfilled once -/

theorem super_remove_path_keeps_listeners (s : stream_gatherer_impl) (slot : stream_slot)
    (x : strong_actor_ptr) (reason : error) (silent : Bool) :
    (super_remove_path s slot x reason silent).2.listeners_ = s.listeners_ ∧
    (super_remove_path s slot x reason silent).2.delivered = s.delivered := by
  unfold super_remove_path
  cases s.paths_.findIdx? (fun p => p.slot == slot && p.hdl == x) with
  | none => exact ⟨rfl, rfl⟩
  | some i => cases silent <;> exact ⟨rfl, rfl⟩

theorem g_remove_path_keeps_listeners (s : stream_gatherer_impl) (slot : stream_slot)
    (x : strong_actor_ptr) (reason : error) (silent : Bool) :
    (remove_path s slot x reason silent).2.listeners_ = s.listeners_ ∧
    (remove_path s slot x reason silent).2.delivered = s.delivered := by
  unfold remove_path
  cases s.assignment_vec_.findIdx? (fun y => y.1.1 == slot && y.1.2 == x) with
  | none => exact ⟨rfl, rfl⟩
  | some i =>
    exact super_remove_path_keeps_listeners
      { s with assignment_vec_ := s.assignment_vec_.eraseIdx i } slot x reason silent

theorem retained_cons (env : gatherer_env) (s : stream_gatherer_impl) (o : op)
    (ops : List op) :
    retained env s (o :: ops) = retained env s [o] ++ retained env (step env s o) ops := by
  cases o <;> simp [retained]

theorem g_conservation_step (env : gatherer_env) (s : stream_gatherer_impl) (o : op) :
    (step env s o).delivered.map Prod.fst ++ (step env s o).listeners_
      = s.delivered.map Prod.fst ++ s.listeners_ ++ retained env s [o] ∧
    ∃ t, (step env s o).delivered = s.delivered ++ t := by
  cases o with
  | add_path slot hdl original_stage prio available_credit redeployable result_cb =>
    show ((add_path env s slot hdl original_stage prio available_credit redeployable
        result_cb).2.delivered.map Prod.fst
        ++ (add_path env s slot hdl original_stage prio available_credit redeployable
        result_cb).2.listeners_
      = s.delivered.map Prod.fst ++ s.listeners_ ++
        ((if (s.find slot hdl).isSome = false ∧ result_cb.pending = true then [result_cb]
          else []) ++ [])) ∧
      ∃ t, (add_path env s slot hdl original_stage prio available_credit redeployable
        result_cb).2.delivered = s.delivered ++ t
    cases hf : s.find slot hdl with
    | none =>
      rw [g_add_path_of_fresh env s slot hdl original_stage prio available_credit redeployable
        result_cb hf]
      refine ⟨?_, [], by simp [send]⟩
      by_cases hp : result_cb.pending = true
      · simp [send, hp]
      · simp [send, hp]
    | some x0 =>
      rw [g_add_path_of_present env s slot hdl original_stage prio available_credit
        redeployable result_cb (by rw [hf]; rfl)]
      exact ⟨by simp, [], by simp⟩
  | remove_path slot x reason silent =>
    obtain ⟨h1, h2⟩ := g_remove_path_keeps_listeners s slot x reason silent
    show ((remove_path s slot x reason silent).2.delivered.map Prod.fst
        ++ (remove_path s slot x reason silent).2.listeners_
      = s.delivered.map Prod.fst ++ s.listeners_ ++ []) ∧
      ∃ t, (remove_path s slot x reason silent).2.delivered = s.delivered ++ t
    rw [h1, h2]
    exact ⟨by simp, [], by simp⟩
  | close result =>
    show ((close s result).delivered.map Prod.fst ++ (close s result).listeners_
      = s.delivered.map Prod.fst ++ s.listeners_ ++ []) ∧
      ∃ t, (close s result).delivered = s.delivered ++ t
    rw [g_close_eq]
    exact ⟨by simp [Function.comp_def], _, rfl⟩
  | abort reason =>
    show ((abort s reason).delivered.map Prod.fst ++ (abort s reason).listeners_
      = s.delivered.map Prod.fst ++ s.listeners_ ++ []) ∧
      ∃ t, (abort s reason).delivered = s.delivered ++ t
    rw [g_abort_eq]
    exact ⟨by simp [Function.comp_def], _, rfl⟩
  | emit_credits =>
    show ((emit_credits s).delivered.map Prod.fst ++ (emit_credits s).listeners_
      = s.delivered.map Prod.fst ++ s.listeners_ ++ []) ∧
      ∃ t, (emit_credits s).delivered = s.delivered ++ t
    rw [g_emit_credits_eq]
    exact ⟨by simp, [], by simp⟩

theorem g_conservation_run (env : gatherer_env) (ops : List op) (s : stream_gatherer_impl) :
    (run env s ops).delivered.map Prod.fst ++ (run env s ops).listeners_
      = s.delivered.map Prod.fst ++ s.listeners_ ++ retained env s ops ∧
    ∃ t, (run env s ops).delivered = s.delivered ++ t := by
  induction ops generalizing s with
  | nil => exact ⟨by simp [run, retained], [], by simp [run]⟩
  | cons o ops ih =>
    obtain ⟨h1, t1, ht1⟩ := ih (step env s o)
    obtain ⟨h2, t2, ht2⟩ := g_conservation_step env s o
    have h4 : run env s (o :: ops) = run env (step env s o) ops := rfl
    rw [h4, retained_cons]
    refine ⟨?_, t2 ++ t1, ?_⟩
    · rw [h1, h2, List.append_assoc]
    · rw [ht1, ht2, List.append_assoc]

theorem run_append (env : gatherer_env) (s : stream_gatherer_impl) (ops1 ops2 : List op) :
    run env s (ops1 ++ ops2) = run env (run env s ops1) ops2 := by
  unfold run
  rw [List.foldl_append]

theorem retained_append (env : gatherer_env) (ops1 ops2 : List op) (s : stream_gatherer_impl) :
    retained env s (ops1 ++ ops2)
      = retained env s ops1 ++ retained env (run env s ops1) ops2 := by
  induction ops1 generalizing s with
  | nil => simp [retained, run]
  | cons o ops ih =>
    have h4 : run env s (o :: ops) = run env (step env s o) ops := rfl
    rw [List.cons_append, retained_cons, retained_cons env s o ops, ih, h4, List.append_assoc]

theorem listeners_empty_after_shutdown (env : gatherer_env) (s : stream_gatherer_impl)
    (o : op) (ho : (∃ r, o = op.close r) ∨ (∃ e, o = op.abort e)) :
    (step env s o).listeners_ = [] ∧ retained env s [o] = [] := by
  rcases ho with ⟨r, rfl⟩ | ⟨e, rfl⟩
  · refine ⟨?_, rfl⟩
    show (close s r).listeners_ = []
    rw [g_close_eq]
  · refine ⟨?_, rfl⟩
    show (abort s e).listeners_ = []
    rw [g_abort_eq]

/-- C17: over every sequence of calls from the fresh gatherer, the promises delivered to so
far, in delivery order, followed by the listeners still kept, are exactly the promises
retained by the `add_path` calls, in retention order: a retained promise is either still
kept or was delivered to once.  Hence, when the retained promises are pairwise distinct, no
promise gets more than one delivery.  Once a `close` or `abort` call has run, the listeners
are empty and every promise retained before that call has its delivery, which stays its
only one whatever calls follow (a later `close` or `abort` delivers nothing to it). -/
theorem gatherer_listener_once (env : gatherer_env) (ops : List op) :
    ((run env init ops).delivered.map Prod.fst ++ (run env init ops).listeners_
      = retained env init ops) ∧
    ((retained env init ops).Nodup →
      ∀ l : response_promise, ((run env init ops).delivered.map Prod.fst).count l ≤ 1) ∧
    (∀ (ops1 : List op) (o : op) (ops2 : List op), ops = ops1 ++ o :: ops2 →
      ((∃ r, o = op.close r) ∨ (∃ e, o = op.abort e)) →
      (run env init (ops1 ++ [o])).listeners_ = [] ∧
      (run env init (ops1 ++ [o])).delivered.map Prod.fst = retained env init ops1 ∧
      ∀ l ∈ retained env init ops1,
        l ∈ (run env init ops).delivered.map Prod.fst ∧
        ((retained env init ops).Nodup →
          ((run env init ops).delivered.map Prod.fst).count l = 1)) := by
  have hA : (run env init ops).delivered.map Prod.fst ++ (run env init ops).listeners_
      = retained env init ops := by
    have h := (g_conservation_run env ops init).1
    simpa [init] using h
  have hB : (retained env init ops).Nodup →
      ∀ l : response_promise, ((run env init ops).delivered.map Prod.fst).count l ≤ 1 := by
    intro hn l
    rw [← hA] at hn
    exact List.nodup_iff_count_le_one.1 (List.nodup_append.1 hn).1 l
  refine ⟨hA, hB, ?_⟩
  intro ops1 o ops2 hops ho
  have hstep : run env init (ops1 ++ [o]) = step env (run env init ops1) o := by
    rw [run_append]
    rfl
  obtain ⟨hl, hret⟩ := listeners_empty_after_shutdown env (run env init ops1) o ho
  have hc := (g_conservation_run env (ops1 ++ [o]) init).1
  rw [retained_append, hret] at hc
  have hl2 : (run env init (ops1 ++ [o])).listeners_ = [] := by rw [hstep, hl]
  rw [hl2] at hc
  have hd : (run env init (ops1 ++ [o])).delivered.map Prod.fst = retained env init ops1 := by
    simpa [init] using hc
  refine ⟨hl2, hd, ?_⟩
  intro l hlm
  have hsplit : ops = (ops1 ++ [o]) ++ ops2 := by rw [hops]; simp
  obtain ⟨t, ht⟩ := (g_conservation_run env ops2 (run env init (ops1 ++ [o]))).2
  rw [← run_append, ← hsplit] at ht
  have hmem : l ∈ (run env init ops).delivered.map Prod.fst := by
    rw [ht, List.map_append, ← hd] at *
    exact List.mem_append_left _ (hd ▸ hlm)
  refine ⟨hmem, ?_⟩
  intro hn
  have h1 := hB hn l
  have h2 : 0 < ((run env init ops).delivered.map Prod.fst).count l :=
    List.count_pos_iff.2 hmem
  omega

/-- Witness for C17: two promises are retained and fulfilled by `close`, a third is retained
and fulfilled by `abort`, and a final `close` delivers nothing. -/
theorem gatherer_listener_once_witness :
    (retained example_env init
      [op.add_path 1 10 99 2 70 false ⟨1, true⟩, op.add_path 1 11 99 2 30 true ⟨2, true⟩,
       op.close [7], op.add_path 1 12 99 2 70 false ⟨3, true⟩, op.abort 4,
       op.close [8]]).Nodup ∧
    (run example_env init
      [op.add_path 1 10 99 2 70 false ⟨1, true⟩, op.add_path 1 11 99 2 30 true ⟨2, true⟩,
       op.close [7], op.add_path 1 12 99 2 70 false ⟨3, true⟩, op.abort 4,
       op.close [8]]).delivered
      = [(⟨1, true⟩, delivery.value [7]), (⟨2, true⟩, delivery.value [7]),
         (⟨3, true⟩, delivery.failure 4)] ∧
    ∀ l : response_promise, ((run example_env init
      [op.add_path 1 10 99 2 70 false ⟨1, true⟩, op.add_path 1 11 99 2 30 true ⟨2, true⟩,
       op.close [7], op.add_path 1 12 99 2 70 false ⟨3, true⟩, op.abort 4,
       op.close [8]]).delivered.map Prod.fst).count l ≤ 1 :=
  ⟨by decide, by decide,
   (gatherer_listener_once example_env
      [op.add_path 1 10 99 2 70 false ⟨1, true⟩, op.add_path 1 11 99 2 30 true ⟨2, true⟩,
       op.close [7], op.add_path 1 12 99 2 70 false ⟨3, true⟩, op.abort 4,
       op.close [8]]).2.1 (by decide)⟩

end stream_gatherer_impl

end caf
